import Mathlib

/-!
GoatCounter cron: hit-count aggregation and the stats pipeline.

A shallow embedding of `cron/hit_count.go` (`updateHitCounts`,
`existingHitCounts`) and of the orchestration code of `cron/tasks.go`
(`UpdateStats`, `PersistAndStat`, `ReindexStats`).

Modelling conventions

* Go `int` is the 64-bit two's-complement integer: values are carried in
  `Int`, and every `+= 1` on a counter goes through `wrapInt`, so that
  `maxInt + 1` is `minInt` as in the program.
* Go `string` is `String`; `error` is the inductive `Error` (`nil` is
  `Option.none`), `errors.Wrap` is the constructor `Error.wrap`.
* `time.Time` is a record of civil-time fields; `Format` renders the one
  layout the code uses.
* Go maps are association lists in insertion order.  `range` over a map visits
  the entries in an unspecified order, which is an explicit `RangeOrder`
  argument: any function returning a permutation of the entries.
* The in-process `go-cache` instance is an association list; expiry is not
  modelled.
* The `hit_counts` table is the list of its rows.  Storage failures are
  injected through a `Faults` record.
-/

namespace GoatCounter

/-! ## Basic types -/

/-- Go `error` values: a base message, or an error wrapped with context. -/
inductive Error where
  | msg (text : String)
  | wrap (context : String) (cause : Error)
  deriving DecidableEq, Repr

/-- The largest value of a Go `int` (64 bits). -/
def maxInt : Int := 9223372036854775807

/-- The smallest value of a Go `int` (64 bits). -/
def minInt : Int := -9223372036854775808

/-- Two's-complement wraparound of Go `int` arithmetic: the value with the
same residue modulo `2^64` in the range `minInt .. maxInt`. -/
def wrapInt (x : Int) : Int :=
  (x + 9223372036854775808) % 18446744073709551616 - 9223372036854775808

/-- The civil-time fields of a `time.Time` (standard library). -/
structure Time where
  year : Nat
  month : Nat
  day : Nat
  hour : Nat
  minute : Nat
  second : Nat
  deriving DecidableEq, Repr

/-- Decimal rendering of `x`, zero-padded on the left to `width` characters
(`appendInt` of package `time`). -/
def appendInt (x width : Nat) : List Char :=
  List.replicate (width - (Nat.toDigits 10 x).length) '0' ++ Nat.toDigits 10 x

/-- The call `CreatedAt.Format("2006-01-02 15:00:00")`: year, month, day and
hour are rendered, minutes and seconds are the literal text `:00:00`. -/
def Time.Format (t : Time) : String :=
  String.mk (appendInt t.year 4 ++ '-' :: (appendInt t.month 2 ++ '-' ::
    (appendInt t.day 2 ++ ' ' :: (appendInt t.hour 2 ++ [':', '0', '0', ':', '0', '0']))))

/-- Modelled from the spec: the type `goatcounter.Hit` is declared outside the
shown files; these are the fields the cron package reads (spec section 3,
"Hit"); the bot score is a signed Go `int`. -/
structure Hit where
  Site : Int
  Path : String
  Title : String
  Event : Bool
  Bot : Int
  FirstVisit : Bool
  CreatedAt : Time
  deriving DecidableEq, Repr

/-- The call `strconv.FormatInt(siteID, 10)`. -/
def FormatInt (i : Int) : String := i.repr

/-- Value stored in `cacheHitCount`. -/
structure cacheHitCountEntry where
  total : Int
  totalUnique : Int
  deriving DecidableEq, Repr

/-- The process-wide `cacheHitCount`. -/
abbrev Cache := List (String × cacheHitCountEntry)

/-- The call `cacheHitCount.Get(k)`. -/
def Cache.Get (c : Cache) (k : String) : Option cacheHitCountEntry :=
  match c with
  | [] => none
  | (k', e) :: rest => if k' = k then some e else Cache.Get rest k

/-- The call `cacheHitCount.SetDefault(k, e)`: overwrite the entry of `k`. -/
def Cache.SetDefault (c : Cache) (k : String) (e : cacheHitCountEntry) : Cache :=
  (k, e) :: c.filter (fun p => !decide (p.1 = k))

/-- The key under which the counters of a bucket are cached. -/
def cacheKey (siteID : Int) (hour path : String) : String :=
  FormatInt siteID ++ hour ++ path

/-- A row of table `hit_counts`. -/
structure Row where
  site : Int
  path : String
  title : String
  event : Bool
  hour : String
  total : Int
  totalUnique : Int
  deriving DecidableEq, Repr

/-- Table `hit_counts`. -/
abbrev Store := List Row

/-- Whether `r` is the row of bucket `(site, hour, path)`, the columns of the
unique constraint `hit_counts#site#path#hour`. -/
def Row.hasKey (r : Row) (site : Int) (hour path : String) : Bool :=
  decide (r.site = site ∧ r.hour = hour ∧ r.path = path)

/-- The query `select ... from hit_counts where site=$1 and hour=$2 and path=$3 limit 1`. -/
def Store.find (s : Store) (site : Int) (hour path : String) : Option Row :=
  List.find? (fun r => r.hasKey site hour path) s

/-- PostgreSQL statement: `insert ... on conflict on constraint
"hit_counts#site#path#hour" do update set total=$8, total_unique=$9`. -/
def Store.upsertPg (s : Store) (r : Row) : Store :=
  if s.any (fun x => x.hasKey r.site r.hour r.path) then
    s.map (fun x => if x.hasKey r.site r.hour r.path then
      { x with total := r.total, totalUnique := r.totalUnique } else x)
  else s ++ [r]

/-- SQLite statement: plain `insert`, the unique constraint being declared
`on conflict replace`: a conflicting row is deleted and the new row inserted. -/
def Store.upsertSqlite (s : Store) (r : Row) : Store :=
  s.filter (fun x => !x.hasKey r.site r.hour r.path) ++ [r]

/-- Injected storage failures: `query` makes the baseline `select` of a
bucket fail with an error other than "no rows", `exec` makes the upsert of a
row fail. -/
structure Faults where
  query : Int → String → String → Option Error
  exec : Row → Option Error

/-- No storage failure at all. -/
def Faults.none : Faults := ⟨fun _ _ _ => Option.none, fun _ => Option.none⟩

/-- The order in which `range` visits the entries of a map. -/
structure RangeOrder (α : Type) where
  pick : List α → List α
  perm : ∀ l, (pick l).Perm l

/-- Visit in insertion order. -/
def RangeOrder.insertion (α : Type) : RangeOrder α := ⟨id, fun l => List.Perm.refl l⟩

/-- Visit in reverse insertion order. -/
def RangeOrder.reversed (α : Type) : RangeOrder α := ⟨List.reverse, fun l => List.reverse_perm l⟩

/-! ## `hit_count.go` -/

/-- Function `existingHitCounts`: the baseline of a bucket, from the cache if present,
else from the table; no row is the baseline `(0, 0)`. -/
def existingHitCounts (f : Faults) (cache : Cache) (tx : Store) (siteID : Int)
    (hour path : String) : Except Error (Int × Int) :=
  match cache.Get (cacheKey siteID hour path) with
  | some x => .ok (x.total, x.totalUnique)
  | none =>
    match f.query siteID hour path with
    | some err => .error (Error.wrap "existingHitCounts" err)
    | none =>
      match tx.find siteID hour path with
      | none => .ok (0, 0)
      | some r => .ok (r.total, r.totalUnique)

/-- The local type `gt` of `updateHitCounts`. -/
structure gt where
  total : Int
  totalUnique : Int
  hour : String
  event : Bool
  path : String
  title : String
  deriving DecidableEq, Repr

/-- The zero value of `gt`, read from the map for an absent key. -/
def gt.zero : gt := ⟨0, 0, "", false, "", ""⟩

/-- The map `grouped` of `updateHitCounts`. -/
abbrev Grouped := List (String × gt)

/-- The expression `grouped[k]` read as a value. -/
def Grouped.get (g : Grouped) (k : String) : gt :=
  match g with
  | [] => gt.zero
  | (k', v) :: rest => if k' = k then v else Grouped.get rest k

/-- The assignment `grouped[k] = v`. -/
def Grouped.set (g : Grouped) (k : String) (v : gt) : Grouped :=
  match g with
  | [] => [(k, v)]
  | (k', v') :: rest => if k' = k then (k, v) :: rest else (k', v') :: Grouped.set rest k v

/-- One iteration of the first loop of `updateHitCounts`. -/
def groupStep (f : Faults) (cache : Cache) (tx : Store) (grouped : Grouped) (h : Hit) :
    Except Error Grouped :=
  if h.Bot > 0 then .ok grouped
  else
    let hour := h.CreatedAt.Format
    let k := hour ++ h.Path
    let v := grouped.get k
    let fetched : Except Error gt :=
      if v.total = 0 then
        match existingHitCounts f cache tx h.Site hour h.Path with
        | .error err => .error err
        | .ok (t, tu) =>
          .ok { v with hour := hour, path := h.Path, event := h.Event, total := t, totalUnique := tu }
      else .ok v
    match fetched with
    | .error err => .error err
    | .ok v =>
      let v := if h.Title ≠ "" then { v with title := h.Title } else v
      let v := { v with total := wrapInt (v.total + 1) }
      let v := if h.FirstVisit then { v with totalUnique := wrapInt (v.totalUnique + 1) } else v
      .ok (grouped.set k v)

/-- The first loop of `updateHitCounts`. -/
def groupLoop (f : Faults) (cache : Cache) (tx : Store) : Grouped → List Hit → Except Error Grouped
  | grouped, [] => .ok grouped
  | grouped, h :: rest =>
    match groupStep f cache tx grouped h with
    | .error err => .error err
    | .ok grouped' => groupLoop f cache tx grouped' rest

/-- The row written for a group. -/
def gt.row (siteID : Int) (v : gt) : Row :=
  ⟨siteID, v.path, v.title, v.event, v.hour, v.total, v.totalUnique⟩

/-- The second loop of `updateHitCounts`: for every group, set the cache entry
and then upsert the row.  The cache is process state, so it is returned also
when a statement fails. -/
def writeLoop (PgSQL : Bool) (f : Faults) (siteID : Int) :
    List gt → Cache → Store → Cache × Except Error Store
  | [], cache, tx => (cache, .ok tx)
  | v :: rest, cache, tx =>
    let cache' := cache.SetDefault (cacheKey siteID v.hour v.path) ⟨v.total, v.totalUnique⟩
    match f.exec (v.row siteID) with
    | some err => (cache', .error (Error.wrap "updateHitCounts hit_counts" err))
    | none =>
      writeLoop PgSQL f siteID rest cache'
        (if PgSQL then tx.upsertPg (v.row siteID) else tx.upsertSqlite (v.row siteID))

/-- The table `hit_counts` together with the process-wide cache. -/
structure DB where
  store : Store
  cache : Cache
  deriving DecidableEq, Repr

/-- The empty table with the empty cache. -/
def DB.empty : DB := ⟨[], []⟩

/-- Function `zdb.TX`: run `fn` on the table; commit what it wrote if it returns no
error, roll back otherwise.  The cache is outside the transaction. -/
def TX (fn : Store → Cache → Cache × Except Error Store) (st : DB) : Option Error × DB :=
  match fn st.store st.cache with
  | (cache, .error err) => (some err, ⟨st.store, cache⟩)
  | (cache, .ok tx) => (none, ⟨tx, cache⟩)

/-- Function `updateHitCounts(ctx, hits)`; `siteID` is `MustGetSite(ctx).ID`, `PgSQL`
is `cfg.PgSQL`. -/
def updateHitCounts (PgSQL : Bool) (f : Faults) (ro : RangeOrder (String × gt)) (siteID : Int)
    (hits : List Hit) (st : DB) : Option Error × DB :=
  TX (fun tx cache =>
    match groupLoop f cache tx [] hits with
    | .error err => (cache, .error err)
    | .ok grouped =>
      writeLoop PgSQL f siteID ((ro.pick grouped).map Prod.snd) cache tx) st

/-! ## `tasks.go` -/

/-- Modelled from the spec: the type `goatcounter.Site` is declared outside the
shown files; these are the fields the cron package reads: the identifier, the
"received data" flag and the soft-delete state (spec section 3, "Site"). -/
structure Site where
  ID : Int
  ReceivedData : Bool
  State : String
  deriving DecidableEq, Repr

/-- Modelled from the spec: the constant `goatcounter.StateActive`, declared
outside the shown files, marking a site "in an active state". -/
def StateActive : String := "a"

/-- The seven dimension functions, named as in the slice `funs` of `UpdateStats`. -/
inductive Dim where
  | updateHitStats
  | updateHitCounts
  | updateBrowserStats
  | updateSystemStats
  | updateLocationStats
  | updateRefCounts
  | updateSizeStats
  deriving DecidableEq, Repr

/-- The slice `funs` of `UpdateStats`, in source order. -/
def funs : List Dim :=
  [.updateHitStats, .updateHitCounts, .updateBrowserStats, .updateSystemStats,
   .updateLocationStats, .updateRefCounts, .updateSizeStats]

/-- Observable actions of the orchestration code, in the order performed. -/
inductive Call where
  /-- Entry into `UpdateStats(ctx, site, siteID, hits)`. -/
  | UpdateStats (siteID : Int) (hits : List Hit)
  /-- Dimension function `d` was called with the context site and `hits`. -/
  | dim (d : Dim) (site : Site) (hits : List Hit)
  /-- The statement `update sites set received_data=1 where id=$1` was issued. -/
  | receivedData (siteID : Int)
  /-- An error was logged with fields `site` and `paths`. -/
  | logError (siteID : Int) (hits : List Hit) (err : Error)
  /-- The call `LastMemstore.Set(goatcounter.Now())`. -/
  | lastMemstoreSet
  deriving DecidableEq, Repr

/-- Everything outside the shown files that the orchestration code calls, as
transitions on an arbitrary world `σ`. -/
structure Env (σ : Type) where
  /-- The dimension functions; each receives the context site and the batch. -/
  dim : Dim → Site → List Hit → σ → Option Error × σ
  /-- The statement `update sites set received_data=1 where id=$1`. -/
  setReceivedData : Int → σ → Option Error × σ
  /-- The call `site.ByID(ctx, siteID)`. -/
  ByID : Int → σ → Except Error Site
  /-- The call `goatcounter.Memstore.Persist(ctx)`: the destructive drain. -/
  Persist : σ → Except Error (List Hit) × σ

/-- A world together with the actions performed so far. -/
structure Run (σ : Type) where
  world : σ
  trace : List Call

/-- Call one dimension function and record the call. -/
def callDim {σ : Type} (env : Env σ) (d : Dim) (site : Site) (hits : List Hit) (r : Run σ) :
    Option Error × Run σ :=
  ((env.dim d site hits r.world).1,
    ⟨(env.dim d site hits r.world).2, r.trace ++ [Call.dim d site hits]⟩)

/-- The loop `for _, f := range funs` of `UpdateStats`. -/
def runFuns {σ : Type} (env : Env σ) (site : Site) (siteID : Int) (hits : List Hit) :
    List Dim → Run σ → Option Error × Run σ
  | [], r => (none, r)
  | d :: rest, r =>
    match callDim env d site hits r with
    | (some err, r') => (some (Error.wrap ("site " ++ FormatInt siteID) err), r')
    | (none, r') => runFuns env site siteID hits rest r'

/-- Function `UpdateStats(ctx, site, siteID, hits)`; `site = none` is the nil pointer. -/
def UpdateStats {σ : Type} (env : Env σ) (site : Option Site) (siteID : Int) (hits : List Hit)
    (r : Run σ) : Option Error × Run σ :=
  let r : Run σ := ⟨r.world, r.trace ++ [Call.UpdateStats siteID hits]⟩
  let resolved : Except Error Site :=
    match site with
    | some s => .ok s
    | none => env.ByID siteID r.world
  match resolved with
  | .error err => (some err, r)
  | .ok site =>
    match runFuns env site siteID hits funs r with
    | (some err, r') => (some err, r')
    | (none, r') =>
      if !site.ReceivedData then
        match env.setReceivedData siteID r'.world with
        | (some err, w) =>
          (some (Error.wrap ("update received_data: site " ++ FormatInt siteID) err),
            ⟨w, r'.trace ++ [Call.receivedData siteID]⟩)
        | (none, w) => (none, ⟨w, r'.trace ++ [Call.receivedData siteID]⟩)
      else (none, r')

/-- A map `map[int64][]goatcounter.Hit`. -/
abbrev SiteGroups := List (Int × List Hit)

/-- The assignment `grouped[siteID] = append(grouped[siteID], h)`. -/
def SiteGroups.add (g : SiteGroups) (siteID : Int) (h : Hit) : SiteGroups :=
  match g with
  | [] => [(siteID, [h])]
  | (k, hs) :: rest =>
    if k = siteID then (k, hs ++ [h]) :: rest else (k, hs) :: SiteGroups.add rest siteID h

/-- The first loop of `ReindexStats`: every hit is appended to the entry of its
site. -/
def groupBySite (hits : List Hit) : SiteGroups :=
  hits.foldl (fun g h => g.add h.Site h) []

/-- The first loop of `PersistAndStat`: a hit with `h.Bot > 0` is skipped, any
other is appended to the entry of its site. -/
def groupNonBots (hits : List Hit) : SiteGroups :=
  hits.foldl (fun g h => if h.Bot > 0 then g else g.add h.Site h) []

/-- The loop `for siteID, hits := range grouped` of `PersistAndStat`.  The
error of `UpdateStats` is bound to a variable local to the loop body; it is
logged and nothing else is done with it. -/
def persistLoop {σ : Type} (env : Env σ) : List (Int × List Hit) → Run σ → Run σ
  | [], r => r
  | (siteID, hits) :: rest, r =>
    match UpdateStats env none siteID hits r with
    | (some errInner, r') =>
      persistLoop env rest ⟨r'.world, r'.trace ++ [Call.logError siteID hits errInner]⟩
    | (none, r') => persistLoop env rest r'

/-- Function `PersistAndStat(ctx)`.  The variable `err` is the one assigned by
`Memstore.Persist`; the function returns it at the end. -/
def PersistAndStat {σ : Type} (env : Env σ) (ro : RangeOrder (Int × List Hit)) (r : Run σ) :
    Option Error × Run σ :=
  match env.Persist r.world with
  | (.error e, w) => (some e, ⟨w, r.trace⟩)
  | (.ok hits, w) =>
    let err : Option Error := none
    let grouped := groupNonBots hits
    let r' := persistLoop env (ro.pick grouped) ⟨w, r.trace⟩
    (err, ⟨r'.world, r'.trace ++ [Call.lastMemstoreSet]⟩)

/-- The `switch t` of `ReindexStats` followed by `if err != nil`; `err` is
the variable declared before the loop over the tables, left as it is by a
name that matches no case. -/
def reindexTable {σ : Type} (env : Env σ) (site : Site) (siteID : Int) (hits : List Hit)
    (t : String) (err : Option Error) (r : Run σ) : Option Error × Run σ :=
  if t = "all" then UpdateStats env (some site) siteID hits r
  else if t = "hit_stats" then callDim env .updateHitStats site hits r
  else if t = "hit_counts" then callDim env .updateHitCounts site hits r
  else if t = "browser_stats" then callDim env .updateBrowserStats site hits r
  else if t = "system_stats" then callDim env .updateSystemStats site hits r
  else if t = "location_stats" then callDim env .updateLocationStats site hits r
  else if t = "ref_counts" then callDim env .updateRefCounts site hits r
  else if t = "size_stats" then callDim env .updateSizeStats site hits r
  else (err, r)

/-- The loop `for _, t := range tables` of `ReindexStats`; a result `some e`
is `return err`. -/
def tablesLoop {σ : Type} (env : Env σ) (site : Site) (siteID : Int) (hits : List Hit) :
    List String → Option Error → Run σ → Option Error × Run σ
  | [], _, r => (none, r)
  | t :: rest, err, r =>
    match reindexTable env site siteID hits t err r with
    | (some e, r') => (some e, r')
    | (none, r') => tablesLoop env site siteID hits rest none r'

/-- The loop `for siteID, hits := range grouped` of `ReindexStats`. -/
def sitesLoop {σ : Type} (env : Env σ) (allSites : Int → Option Site) (tables : List String) :
    List (Int × List Hit) → Run σ → Option Error × Run σ
  | [], r => (none, r)
  | (siteID, hits) :: rest, r =>
    match allSites siteID with
    | none =>
      (some (Error.msg ("cron.ReindexStats: not in allSites: " ++ FormatInt siteID)), r)
    | some site =>
      if site.State ≠ StateActive then sitesLoop env allSites tables rest r
      else
        match tablesLoop env site siteID hits tables none r with
        | (some e, r') => (some e, r')
        | (none, r') => sitesLoop env allSites tables rest r'

/-- Function `ReindexStats(ctx, hits, tables)`; `allSites` is the snapshot loaded once by
`sitesOnce`. -/
def ReindexStats {σ : Type} (env : Env σ) (ro : RangeOrder (Int × List Hit))
    (allSites : Int → Option Site) (hits : List Hit) (tables : List String) (r : Run σ) :
    Option Error × Run σ :=
  let grouped := groupBySite hits
  sitesLoop env allSites tables (ro.pick grouped) r

/-! ## Notions used to state the properties -/

/-- The hits of a batch that `updateHitCounts` aggregates into bucket
`(hour, path)`: those passing the guard `h.Bot > 0` with that formatted hour
and that path. -/
def bucketHits (hits : List Hit) (hour path : String) : List Hit :=
  hits.filter (fun h => decide (¬ h.Bot > 0 ∧ h.CreatedAt.Format = hour ∧ h.Path = path))

/-- The hits of a batch with bot score exactly zero, formatted hour `hour` and
path `path`. -/
def bucketHitsBotZero (hits : List Hit) (hour path : String) : List Hit :=
  hits.filter (fun h => decide (h.Bot = 0 ∧ h.CreatedAt.Format = hour ∧ h.Path = path))

/-- The hits with the first-visit flag set. -/
def uniqueHits (hits : List Hit) : List Hit := hits.filter (fun h => h.FirstVisit)

/-- The stored `(total, total_unique)` of a bucket, `(0, 0)` if it has no row. -/
def storedCounts (s : Store) (site : Int) (hour path : String) : Int × Int :=
  match s.find site hour path with
  | none => (0, 0)
  | some r => (r.total, r.totalUnique)

/-- The stored title of a bucket, if it has a row. -/
def storedTitle (s : Store) (site : Int) (hour path : String) : Option String :=
  (s.find site hour path).map (fun r => r.title)

/-- The title of the last hit of the list that carries a non-empty title, the
empty string if there is none. -/
def lastTitle (hits : List Hit) : String :=
  ((hits.filter (fun h => decide (h.Title ≠ ""))).map (fun h => h.Title)).getLast?.getD ""

/-- Every cache entry of a bucket of `site` equals the stored pair of that
bucket. -/
def CacheMirrors (site : Int) (st : DB) : Prop :=
  ∀ (t : Time) (p : String) (e : cacheHitCountEntry),
    st.cache.Get (cacheKey site t.Format p) = some e →
      storedCounts st.store site t.Format p = (e.total, e.totalUnique)

/-- Every stored total is non-negative. -/
def TotalsNonneg (s : Store) : Prop := ∀ r ∈ s, 0 ≤ r.total

/-- Every stored total is at most the largest Go `int`. -/
def TotalsInRange (s : Store) : Prop := ∀ r ∈ s, r.total ≤ maxInt

/-- The counter `x` after `n` executions of `x += 1` on a Go `int`. -/
def wrapAdd (x : Int) : Nat → Int
  | 0 => x
  | n + 1 => wrapInt (x + ((n + 1 : Nat) : Int))

/-- A batch of `n` hits cannot overflow a counter of the table: `n` itself,
and every stored total and total_unique plus `n`, are at most `maxInt`, and
every stored total_unique is at least `minInt`. -/
def Headroom (n : Nat) (s : Store) : Prop :=
  (n : Int) ≤ maxInt ∧
  ∀ r ∈ s, r.total + n ≤ maxInt ∧ minInt ≤ r.totalUnique ∧ r.totalUnique + n ≤ maxInt

/-- No stored total of a bucket of `site` comes back to zero within `n`
increments, so that a group under construction is never mistaken for a new
one by the test `v.total == 0`. -/
def NoZeroCrossing (site : Int) (n : Nat) (s : Store) : Prop :=
  ∀ (t : Time) (p : String) (k : Nat), 1 ≤ k → k ≤ n →
    wrapAdd (storedCounts s site t.Format p).1 k ≠ 0

/-- The invariant `total ≥ total_unique ≥ 0` on every row and every cache entry. -/
def CountersInv (st : DB) : Prop :=
  (∀ r ∈ st.store, r.totalUnique ≤ r.total ∧ 0 ≤ r.totalUnique) ∧
  (∀ k e, st.cache.Get k = some e → e.totalUnique ≤ e.total ∧ 0 ≤ e.totalUnique)

/-- Every total, stored or cached, is at most `B`. -/
def TotalsBelow (B : Int) (st : DB) : Prop :=
  0 ≤ B ∧ (∀ r ∈ st.store, r.total ≤ B) ∧ (∀ k e, st.cache.Get k = some e → e.total ≤ B)

/-- The states reachable from the empty table and cache by calls of
`updateHitCounts` that together were given `n` hits, whatever the dialect, the
failures, the visiting order, the context site and the batches, and whether
the calls succeed or not. -/
inductive ReachableIn : Nat → DB → Prop where
  | empty : ReachableIn 0 DB.empty
  | call (PgSQL : Bool) (f : Faults) (ro : RangeOrder (String × gt)) (siteID : Int)
      (hits : List Hit) (n : Nat) (st : DB) :
      ReachableIn n st →
        ReachableIn (n + hits.length) (updateHitCounts PgSQL f ro siteID hits st).2

/-- The entry of key `k` in the map, if present. -/
def Grouped.find? (g : Grouped) (k : String) : Option gt :=
  match g with
  | [] => none
  | (k', v) :: rest => if k' = k then some v else Grouped.find? rest k

/-- The hits of a batch that `updateHitCounts` files under map key `k`. -/
def keyHits (hits : List Hit) (k : String) : List Hit :=
  hits.filter (fun h => decide (¬ h.Bot > 0 ∧ h.CreatedAt.Format ++ h.Path = k))

/-- The row a successful upsert of group `v` leaves for its bucket. -/
def writtenRow (PgSQL : Bool) (s : Store) (site : Int) (v : gt) : Row :=
  if PgSQL then
    match s.find site v.hour v.path with
    | some x => { x with total := v.total, totalUnique := v.totalUnique }
    | none => v.row site
  else v.row site

/-- Characters that separate the numeric fields of a formatted hour. -/
def isSep (c : Char) : Prop := c = '-' ∨ c = ' ' ∨ c = ':'

/-- Loop invariant of the first loop of `updateHitCounts`, after the hits
`done`: the shape of the map, whatever the prior state. -/
def GroupShape (g : Grouped) (done : List Hit) : Prop :=
  (g.map Prod.fst).Nodup ∧
  (∀ k v, g.find? k = some v →
    (∃ h ∈ done, ¬ h.Bot > 0 ∧ v.hour = h.CreatedAt.Format ∧ v.path = h.Path) ∧
    k = v.hour ++ v.path ∧ keyHits done k ≠ [] ∧ v.title = lastTitle (keyHits done k)) ∧
  (∀ k, g.find? k = none → keyHits done k = [])

/-- Loop invariant of the first loop of `updateHitCounts`, after the hits
`done`: every group holds the stored baseline plus the hits seen so far. -/
def GroupCounts (site : Int) (s : Store) (g : Grouped) (done : List Hit) : Prop :=
  ∀ k v, g.find? k = some v →
    v.total = wrapAdd (storedCounts s site v.hour v.path).1 (keyHits done k).length ∧
    v.totalUnique
      = wrapAdd (storedCounts s site v.hour v.path).2 (uniqueHits (keyHits done k)).length

/-- Loop invariant of the first loop of `updateHitCounts`, after the hits
`done`: the counters of every group are ordered, positive and at most `B`
plus the number of hits seen. -/
def GroupBounded (B : Int) (g : Grouped) (done : List Hit) : Prop :=
  ∀ k v, g.find? k = some v →
    1 ≤ v.total ∧ v.total ≤ B + done.length ∧ v.totalUnique ≤ v.total ∧ 0 ≤ v.totalUnique

/-- The batch of hits an action carries, if any. -/
def Call.batch : Call → List Hit
  | .UpdateStats _ hits => hits
  | .dim _ _ hits => hits
  | .logError _ hits _ => hits
  | .receivedData _ => []
  | .lastMemstoreSet => []

/-- The dimension function that bears a table name of the closed set. -/
def dimOfTable (t : String) : Option Dim :=
  if t = "hit_stats" then some .updateHitStats
  else if t = "hit_counts" then some .updateHitCounts
  else if t = "browser_stats" then some .updateBrowserStats
  else if t = "system_stats" then some .updateSystemStats
  else if t = "location_stats" then some .updateLocationStats
  else if t = "ref_counts" then some .updateRefCounts
  else if t = "size_stats" then some .updateSizeStats
  else none

/-- The actions of a complete, failure-free `UpdateStats` for a resolved site:
all seven dimensions in their fixed order, then the `received_data` update if
the flag was false. -/
def updateStatsCalls (site : Site) (siteID : Int) (hits : List Hit) : List Call :=
  Call.UpdateStats siteID hits :: funs.map (fun d => Call.dim d site hits)
    ++ (if site.ReceivedData then [] else [Call.receivedData siteID])

/-- The actions a reindex run owes to one table name for one site: everything
`UpdateStats` does for `all`, the one dimension function bearing the name for
a name of the closed set, nothing for any other name. -/
def tableCalls (site : Site) (siteID : Int) (hits : List Hit) (t : String) : List Call :=
  if t = "all" then updateStatsCalls site siteID hits
  else
    match dimOfTable t with
    | some d => [Call.dim d site hits]
    | none => []

/-- The actions a reindex run owes to one site: those of every table name in
order if the site is in the snapshot and active, none otherwise. -/
def siteCalls (allSites : Int → Option Site) (tables : List String) (siteID : Int)
    (hits : List Hit) : List Call :=
  match allSites siteID with
  | some site =>
    if site.State = StateActive then tables.flatMap (tableCalls site siteID hits) else []
  | none => []

/-- The hits of a batch that belong to site `siteID`, in their order. -/
def siteHits (hits : List Hit) (siteID : Int) : List Hit :=
  hits.filter (fun h => decide (h.Site = siteID))

/-- The entry of a site in the map, if present. -/
def SiteGroups.find? (g : SiteGroups) (siteID : Int) : Option (List Hit) :=
  match g with
  | [] => none
  | (k, hs) :: rest => if k = siteID then some hs else SiteGroups.find? rest siteID

/-- A world without state, in which every dimension function returns what
`outcome` says, the `received_data` update returns `upd`, sites resolve by
`sites` and the drain returns `drained`. -/
def stubEnv (outcome : Dim → Option Error) (upd : Option Error) (sites : Int → Option Site)
    (drained : List Hit) : Env Unit where
  dim := fun d _ _ w => (outcome d, w)
  setReceivedData := fun _ w => (upd, w)
  ByID := fun id _ =>
    match sites id with
    | some s => .ok s
    | none => .error (Error.msg "sql: no rows in result set")
  Persist := fun w => (.ok drained, w)

/-- The world made of the `hit_counts` table and its cache, in which
`updateHitCounts` is the function of `hit_count.go` and the six other
dimension functions, kept outside the shown files, do nothing. -/
def hitCountEnv (PgSQL : Bool) (f : Faults) (ro : RangeOrder (String × gt))
    (sites : Int → Option Site) (drained : List Hit) : Env DB where
  dim := fun d site hits db =>
    match d with
    | .updateHitCounts => updateHitCounts PgSQL f ro site.ID hits db
    | _ => (none, db)
  setReceivedData := fun _ db => (none, db)
  ByID := fun id _ =>
    match sites id with
    | some s => .ok s
    | none => .error (Error.msg "sql: no rows in result set")
  Persist := fun db => (.ok drained, db)

/-- Run `r'` continues run `r`, and every action added satisfies `P`. -/
def Extends {σ : Type} (P : Call → Prop) (r r' : Run σ) : Prop :=
  ∃ added, r'.trace = r.trace ++ added ∧ ∀ c ∈ added, P c

/-- The first dimension of the list that fails under `outcome`, with the
dimensions before it and its error. -/
def firstFailure (outcome : Dim → Option Error) : List Dim → Option (List Dim × Dim × Error)
  | [] => none
  | d :: rest =>
    match outcome d with
    | some e => some ([], d, e)
    | none => (firstFailure outcome rest).map (fun q => (d :: q.1, q.2.1, q.2.2))

/-- Carry out a list of planned invocations, each paired with what it
returns: perform them in order, stop after the first that returns an error,
and return that error; return `nil` if none does. -/
def runPlan : List (Call × Option Error) → Option Error × List Call
  | [] => (none, [])
  | (c, some e) :: _ => (some e, [c])
  | (c, none) :: rest => ((runPlan rest).1, c :: (runPlan rest).2)

/-- The invocations of `UpdateStats` for a resolved site with what each
returns to the caller of `UpdateStats`: the entry, the seven dimensions with
their error wrapped with the site identifier, and the `received_data` update
(if the flag is false) with its error wrapped. -/
def updateStatsPlan (outcome : Dim → Site → List Hit → Option Error) (upd : Int → Option Error)
    (site : Site) (siteID : Int) (hits : List Hit) : List (Call × Option Error) :=
  (Call.UpdateStats siteID hits, none) ::
    funs.map (fun d => (Call.dim d site hits,
      (outcome d site hits).map (Error.wrap ("site " ++ FormatInt siteID))))
    ++ (if site.ReceivedData then []
        else [(Call.receivedData siteID,
          (upd siteID).map (Error.wrap ("update received_data: site " ++ FormatInt siteID)))])

/-- The invocations a reindex run owes to one table name for one site, with
what each returns. -/
def tablePlan (outcome : Dim → Site → List Hit → Option Error) (upd : Int → Option Error)
    (site : Site) (siteID : Int) (hits : List Hit) (t : String) : List (Call × Option Error) :=
  if t = "all" then updateStatsPlan outcome upd site siteID hits
  else
    match dimOfTable t with
    | some d => [(Call.dim d site hits, outcome d site hits)]
    | none => []

/-- The invocations a reindex run owes to one site, with what each returns. -/
def sitePlan (outcome : Dim → Site → List Hit → Option Error) (upd : Int → Option Error)
    (allSites : Int → Option Site) (tables : List String) (siteID : Int) (hits : List Hit) :
    List (Call × Option Error) :=
  match allSites siteID with
  | some site =>
    if site.State = StateActive then tables.flatMap (tablePlan outcome upd site siteID hits)
    else []
  | none => []

/-- The invocations a reindex run owes to the sites `visited`, in that order,
with what each returns. -/
def reindexPlan (outcome : Dim → Site → List Hit → Option Error) (upd : Int → Option Error)
    (allSites : Int → Option Site) (tables : List String) (visited : List Int)
    (hits : List Hit) : List (Call × Option Error) :=
  visited.flatMap (fun id => sitePlan outcome upd allSites tables id (siteHits hits id))

/-- The transition `F` performs the planned invocations `P` up to and
including the first that returns an error, and returns that error. -/
def Realises {σ : Type} (F : Run σ → Option Error × Run σ) (P : List (Call × Option Error)) :
    Prop :=
  ∀ r, (F r).1 = (runPlan P).1 ∧ (F r).2.trace = r.trace ++ (runPlan P).2

/-! ### Scenario data -/

/-- A first-visit, non-bot hit of site 1 on 2020-06-18 at `hh:mm`. -/
def mkHit (path title : String) (hh mm : Nat) : Hit :=
  ⟨1, path, title, false, 0, true, ⟨2020, 6, 18, hh, mm, 0⟩⟩

/-- Hits at 10:03, 10:47 and 11:02 for path `/x`, all first visits, none a bot. -/
def scenarioHits : List Hit := [mkHit "/x" "" 10 3, mkHit "/x" "" 10 47, mkHit "/x" "" 11 2]

/-- The state the three scenario hits leave on the empty table and cache. -/
def scenarioResult : DB :=
  ⟨[⟨1, "/x", "", false, "2020-06-18 10:00:00", 2, 2⟩,
    ⟨1, "/x", "", false, "2020-06-18 11:00:00", 1, 1⟩],
   [("12020-06-18 11:00:00/x", ⟨1, 1⟩), ("12020-06-18 10:00:00/x", ⟨2, 2⟩)]⟩

/-- A hit of site 1 at 10:03 for path `/x` with bot score `bot`. -/
def botHit (bot : Int) : Hit := ⟨1, "/x", "", false, bot, true, ⟨2020, 6, 18, 10, 3, 0⟩⟩

/-- Hits H1 (no title), H2 (title `A`), H3 (no title) of one bucket. -/
def titleHits : List Hit := [mkHit "/x" "" 10 3, mkHit "/x" "A" 10 20, mkHit "/x" "" 10 47]

/-- A table holding one row for bucket (site 1, 10:00, `/x`) with title `Old`
and the given counters, and an empty cache. -/
def oneRow (total totalUnique : Int) : DB :=
  ⟨[⟨1, "/x", "Old", false, "2020-06-18 10:00:00", total, totalUnique⟩], []⟩

/-- The upsert of every row of hour 11:00 fails. -/
def failEleven : Faults :=
  ⟨fun _ _ _ => none,
   fun r => if r.hour = "2020-06-18 11:00:00" then some (Error.msg "db down") else none⟩

/-- Every upsert fails. -/
def execDown : Faults := ⟨fun _ _ _ => none, fun _ => some (Error.msg "db down")⟩

/-- Site 1, active, flag `received` as given. -/
def site1 (received : Bool) : Site := ⟨1, received, StateActive⟩

/-- Only the given dimension fails. -/
def failOnly (d : Dim) : Dim → Option Error :=
  fun x => if x = d then some (Error.msg "boom") else none

/-- A stateless world in which every site resolves to site 1 (active, flag
already set), the dimension functions return what `outcome` says and the
drain returns `drained`. -/
def drainEnv (outcome : Dim → Option Error) (drained : List Hit) : Env Unit :=
  stubEnv outcome none (fun _ => some (site1 true)) drained

/-- A snapshot with site 1 active and site 2 soft-deleted. -/
def twoSites : Int → Option Site :=
  fun id => if id = 1 then some ⟨1, false, StateActive⟩
    else if id = 2 then some ⟨2, false, "d"⟩ else none

/-- A hit of site 2. -/
def otherSiteHit : Hit := ⟨2, "/y", "", false, 0, true, ⟨2020, 6, 18, 10, 5, 0⟩⟩

/-! ## Lemmas: Go `int` arithmetic -/

theorem wrapInt_of_range (x : Int) (h1 : minInt ≤ x) (h2 : x ≤ maxInt) : wrapInt x = x := by
  unfold wrapInt
  unfold minInt at h1
  unfold maxInt at h2
  omega

theorem wrapInt_wrapInt_add (a b : Int) : wrapInt (wrapInt a + b) = wrapInt (a + b) := by
  unfold wrapInt
  omega

theorem wrapAdd_succ (x : Int) (n : Nat) : wrapInt (wrapAdd x n + 1) = wrapAdd x (n + 1) := by
  cases n with
  | zero => simp [wrapAdd]
  | succ m =>
    simp only [wrapAdd]
    rw [wrapInt_wrapInt_add]
    congr 1
    push_cast
    ring

theorem wrapAdd_add (x : Int) (m n : Nat) : wrapAdd (wrapAdd x m) n = wrapAdd x (m + n) := by
  cases n with
  | zero => rfl
  | succ n' =>
    cases m with
    | zero => simp [wrapAdd]
    | succ m' =>
      have : m' + 1 + (n' + 1) = (m' + n' + 1) + 1 := by omega
      rw [this]
      simp only [wrapAdd]
      rw [wrapInt_wrapInt_add]
      congr 1
      push_cast
      ring

theorem wrapAdd_of_range (x : Int) (n : Nat) (h1 : minInt ≤ x) (h2 : x + n ≤ maxInt) :
    wrapAdd x n = x + n := by
  cases n with
  | zero => simp [wrapAdd]
  | succ m =>
    simp only [wrapAdd]
    apply wrapInt_of_range
    · have : (0 : Int) ≤ ((m + 1 : Nat) : Int) := Int.natCast_nonneg _
      omega
    · exact h2

theorem wrapAdd_ne_zero (x : Int) (n : Nat) (h0 : 0 ≤ x) (h1 : x ≤ maxInt) (hn : 1 ≤ n)
    (hn' : (n : Int) ≤ maxInt) : wrapAdd x n ≠ 0 := by
  cases n with
  | zero => omega
  | succ m =>
    simp only [wrapAdd]
    unfold wrapInt
    unfold maxInt at h1 hn'
    have : (1 : Int) ≤ ((m + 1 : Nat) : Int) := by exact_mod_cast hn
    omega

/-! ## Lemmas: strings and formatted hours -/

theorem digitChar_not_sep (d : Nat) (h : d < 10) : ¬ isSep (Nat.digitChar d) := by
  unfold isSep
  interval_cases d <;> decide

theorem toDigitsCore_not_sep (fuel : Nat) : ∀ (n : Nat) (ds : List Char),
    (∀ c ∈ ds, ¬ isSep c) → ∀ c ∈ Nat.toDigitsCore 10 fuel n ds, ¬ isSep c := by
  induction fuel with
  | zero => intro n ds h c hc; simpa [Nat.toDigitsCore] using h c (by simpa [Nat.toDigitsCore] using hc)
  | succ fuel ih =>
    intro n ds h c hc
    unfold Nat.toDigitsCore at hc
    simp only at hc
    split_ifs at hc with h0
    · rcases List.mem_cons.1 hc with rfl | hc
      · exact digitChar_not_sep _ (Nat.mod_lt _ (by decide))
      · exact h c hc
    · refine ih _ _ ?_ c hc
      intro c' hc'
      rcases List.mem_cons.1 hc' with rfl | hc'
      · exact digitChar_not_sep _ (Nat.mod_lt _ (by decide))
      · exact h c' hc'

theorem appendInt_not_sep (x w : Nat) : ∀ c ∈ appendInt x w, ¬ isSep c := by
  intro c hc
  unfold appendInt at hc
  rcases List.mem_append.1 hc with hc | hc
  · have : c = '0' := (List.mem_replicate.1 hc).2
    subst this; unfold isSep; decide
  · exact toDigitsCore_not_sep _ _ _ (by simp) c hc

theorem split_at_sep (s : Char) (hs : isSep s) : ∀ (xs ys r1 r2 : List Char),
    (∀ c ∈ xs, ¬ isSep c) → (∀ c ∈ ys, ¬ isSep c) →
    xs ++ s :: r1 = ys ++ s :: r2 → xs = ys ∧ r1 = r2 := by
  intro xs
  induction xs with
  | nil =>
    intro ys r1 r2 _ hy h
    cases ys with
    | nil => simpa using h
    | cons y ys =>
      simp at h
      exact absurd (h.1 ▸ hs) (hy y (by simp))
  | cons x xs ih =>
    intro ys r1 r2 hx hy h
    cases ys with
    | nil =>
      simp at h
      exact absurd (h.1 ▸ hs) (hx x (by simp))
    | cons y ys =>
      simp at h
      obtain ⟨h1, h2⟩ := ih ys r1 r2 (fun c hc => hx c (by simp [hc]))
        (fun c hc => hy c (by simp [hc])) h.2
      exact ⟨by rw [h.1, h1], h2⟩

theorem string_append_left_cancel (a b c : String) (h : a ++ b = a ++ c) : b = c := by
  have h' := congrArg String.data h
  simp only [String.data_append] at h'
  exact String.ext (List.append_cancel_left h')

/-- Two formatted hours followed by paths agree only if hours and paths agree:
the map key `hour + path` determines the bucket. -/
theorem Format_append_inj (t1 t2 : Time) (p1 p2 : String)
    (h : t1.Format ++ p1 = t2.Format ++ p2) : t1.Format = t2.Format ∧ p1 = p2 := by
  have h' := congrArg String.data h
  simp only [String.data_append, Time.Format, List.append_assoc, List.cons_append] at h'
  obtain ⟨hy, h1⟩ := split_at_sep '-' (Or.inl rfl) _ _ _ _
    (appendInt_not_sep _ _) (appendInt_not_sep _ _) h'
  obtain ⟨hm, h2⟩ := split_at_sep '-' (Or.inl rfl) _ _ _ _
    (appendInt_not_sep _ _) (appendInt_not_sep _ _) h1
  obtain ⟨hd, h3⟩ := split_at_sep ' ' (Or.inr (Or.inl rfl)) _ _ _ _
    (appendInt_not_sep _ _) (appendInt_not_sep _ _) h2
  obtain ⟨hh, h4⟩ := split_at_sep ':' (Or.inr (Or.inr rfl)) _ _ _ _
    (appendInt_not_sep _ _) (appendInt_not_sep _ _) h3
  have hp : p1.data = p2.data := by simpa using h4
  refine ⟨?_, String.ext hp⟩
  simp only [Time.Format, hy, hm, hd, hh]

theorem cacheKey_eq_iff (site : Int) (a b c d : String) :
    cacheKey site a b = cacheKey site c d ↔ a ++ b = c ++ d := by
  unfold cacheKey
  rw [String.append_assoc, String.append_assoc]
  exact ⟨string_append_left_cancel _ _ _, fun h => by rw [h]⟩

theorem keyHits_eq_bucketHits (hits : List Hit) (t : Time) (p : String) :
    keyHits hits (t.Format ++ p) = bucketHits hits t.Format p := by
  unfold keyHits bucketHits
  apply List.filter_congr
  intro h _
  have : (h.CreatedAt.Format ++ h.Path = t.Format ++ p) ↔
      (h.CreatedAt.Format = t.Format ∧ h.Path = p) :=
    ⟨Format_append_inj _ _ _ _, fun ⟨a, b⟩ => by rw [a, b]⟩
  simp only [this]

/-! ## Lemmas: cache, table and map operations -/

theorem Cache.Get_filter_ne (c : Cache) (k k' : String) (h : k ≠ k') :
    Cache.Get (c.filter (fun p => !decide (p.1 = k))) k' = Cache.Get c k' := by
  induction c with
  | nil => rfl
  | cons p rest ih =>
    obtain ⟨a, e⟩ := p
    by_cases hak : a = k
    · subst hak
      simp [List.filter, Cache.Get, h, ih]
    · simp [List.filter, Cache.Get, hak, ih]

theorem Cache.Get_SetDefault (c : Cache) (k k' : String) (e : cacheHitCountEntry) :
    (c.SetDefault k e).Get k' = if k = k' then some e else c.Get k' := by
  unfold Cache.SetDefault
  by_cases h : k = k'
  · simp [Cache.Get, h]
  · simp [Cache.Get, h, Cache.Get_filter_ne c k k' h]

theorem Grouped.get_eq (g : Grouped) (k : String) : g.get k = (g.find? k).getD gt.zero := by
  induction g with
  | nil => rfl
  | cons p rest ih =>
    obtain ⟨a, v⟩ := p
    by_cases h : a = k <;> simp [Grouped.get, Grouped.find?, h, ih]

theorem Grouped.find?_set (g : Grouped) (k k' : String) (v : gt) :
    (g.set k v).find? k' = if k = k' then some v else g.find? k' := by
  induction g with
  | nil => simp [Grouped.set, Grouped.find?]
  | cons p rest ih =>
    obtain ⟨a, w⟩ := p
    by_cases h : a = k
    · subst h
      by_cases h' : a = k' <;> simp [Grouped.set, Grouped.find?, h']
    · by_cases h' : a = k'
      · subst h'
        simp [Grouped.set, Grouped.find?, h, Ne.symm h]
      · simp [Grouped.set, Grouped.find?, h, h', ih]

theorem Grouped.keys_set (g : Grouped) (k : String) (v : gt) :
    ∀ a, a ∈ (g.set k v).map Prod.fst ↔ a = k ∨ a ∈ g.map Prod.fst := by
  induction g with
  | nil => intro a; simp [Grouped.set]
  | cons p rest ih =>
    obtain ⟨b, w⟩ := p
    intro a
    by_cases h : b = k
    · subst h; simp [Grouped.set]
    · simp only [Grouped.set, h, if_false, List.map_cons, List.mem_cons, ih a]
      tauto

theorem Grouped.nodup_set (g : Grouped) (k : String) (v : gt)
    (h : (g.map Prod.fst).Nodup) : ((g.set k v).map Prod.fst).Nodup := by
  induction g with
  | nil => simp [Grouped.set]
  | cons p rest ih =>
    obtain ⟨b, w⟩ := p
    simp only [List.map_cons, List.nodup_cons] at h
    by_cases hb : b = k
    · subst hb
      simpa [Grouped.set] using h
    · simp only [Grouped.set, hb, if_false, List.map_cons, List.nodup_cons]
      refine ⟨?_, ih h.2⟩
      rw [Grouped.keys_set]
      rintro (h1 | h1)
      · exact hb h1
      · exact h.1 h1

theorem Grouped.find?_of_mem (g : Grouped) (h : (g.map Prod.fst).Nodup) (k : String) (v : gt)
    (hm : (k, v) ∈ g) : g.find? k = some v := by
  induction g with
  | nil => simp at hm
  | cons p rest ih =>
    obtain ⟨b, w⟩ := p
    simp only [List.map_cons, List.nodup_cons] at h
    rcases List.mem_cons.1 hm with heq | hm
    · cases heq; simp [Grouped.find?]
    · have hb : b ≠ k := by
        rintro rfl
        exact h.1 (List.mem_map.2 ⟨(b, v), hm, rfl⟩)
      simp [Grouped.find?, hb, ih h.2 hm]

theorem Grouped.mem_of_find? (g : Grouped) (k : String) (v : gt)
    (h : g.find? k = some v) : (k, v) ∈ g := by
  induction g with
  | nil => simp [Grouped.find?] at h
  | cons p rest ih =>
    obtain ⟨b, w⟩ := p
    by_cases hb : b = k
    · subst hb
      simp [Grouped.find?] at h
      simp [h]
    · simp [Grouped.find?, hb] at h
      exact List.mem_cons_of_mem _ (ih h)

theorem Row.hasKey_iff (r : Row) (site : Int) (hour path : String) :
    r.hasKey site hour path = true ↔ r.site = site ∧ r.hour = hour ∧ r.path = path := by
  simp [Row.hasKey]

theorem Store.find_some_hasKey (s : Store) (site : Int) (hour path : String) (r : Row)
    (h : s.find site hour path = some r) :
    r ∈ s ∧ r.site = site ∧ r.hour = hour ∧ r.path = path := by
  unfold Store.find at h
  exact ⟨List.mem_of_find?_eq_some h,
    (Row.hasKey_iff _ _ _ _).1 (@List.find?_some Row (fun r => r.hasKey site hour path) _ _ h)⟩

theorem Store.find_upsertSqlite_same (s : Store) (r : Row) :
    (s.upsertSqlite r).find r.site r.hour r.path = some r := by
  unfold Store.upsertSqlite Store.find
  induction s with
  | nil => simp [Row.hasKey]
  | cons x rest ih =>
    by_cases hx : x.hasKey r.site r.hour r.path = true
    · simpa [List.filter, hx] using ih
    · simp only [Bool.not_eq_true] at hx
      simpa [List.filter, hx, List.find?] using ih

theorem Store.find_upsertSqlite_other (s : Store) (r : Row) (site : Int) (hour path : String)
    (h : ¬ (r.site = site ∧ r.hour = hour ∧ r.path = path)) :
    (s.upsertSqlite r).find site hour path = s.find site hour path := by
  have hr : r.hasKey site hour path = false := by
    simpa [Row.hasKey] using h
  unfold Store.upsertSqlite Store.find
  induction s with
  | nil => simp [List.find?, hr]
  | cons x rest ih =>
    by_cases hx : x.hasKey r.site r.hour r.path = true
    · have hx' : x.hasKey site hour path = false := by
        cases hq : x.hasKey site hour path
        · rfl
        · obtain ⟨a, b, c⟩ := (Row.hasKey_iff _ _ _ _).1 hx
          obtain ⟨a', b', c'⟩ := (Row.hasKey_iff _ _ _ _).1 hq
          exact absurd ⟨a.symm.trans a', b.symm.trans b', c.symm.trans c'⟩ h
      simpa [List.filter, hx, List.find?, hx'] using ih
    · simp only [Bool.not_eq_true] at hx
      by_cases hq : x.hasKey site hour path = true
      · simp [List.filter, hx, List.find?, hq]
      · simp only [Bool.not_eq_true] at hq
        simpa [List.filter, hx, List.find?, hq] using ih

theorem Store.find_map_update (s : Store) (r : Row) (site : Int) (hour path : String) :
    List.find? (fun x => x.hasKey site hour path)
      (s.map (fun x => if x.hasKey r.site r.hour r.path then
        { x with total := r.total, totalUnique := r.totalUnique } else x)) =
    (List.find? (fun x => x.hasKey site hour path) s).map
      (fun x => if x.hasKey r.site r.hour r.path then
        { x with total := r.total, totalUnique := r.totalUnique } else x) := by
  induction s with
  | nil => rfl
  | cons x rest ih =>
    by_cases hx : x.hasKey r.site r.hour r.path = true
    · by_cases hq : x.hasKey site hour path = true
      · have : Row.hasKey { x with total := r.total, totalUnique := r.totalUnique }
            site hour path = true := hq
        simp [List.find?, hx, hq, this]
      · simp only [Bool.not_eq_true] at hq
        have : Row.hasKey { x with total := r.total, totalUnique := r.totalUnique }
            site hour path = false := hq
        simp only [List.map_cons, hx, if_true, List.find?, this, hq]
        exact ih
    · simp only [Bool.not_eq_true] at hx
      by_cases hq : x.hasKey site hour path = true
      · simp [List.find?, hx, hq]
      · simp only [Bool.not_eq_true] at hq
        simp only [List.map_cons, hx, List.find?, hq, Bool.false_eq_true, if_false]
        exact ih

theorem Store.find_upsertPg_same (s : Store) (r : Row) :
    (s.upsertPg r).find r.site r.hour r.path =
      some (match s.find r.site r.hour r.path with
        | some x => { x with total := r.total, totalUnique := r.totalUnique }
        | none => r) := by
  unfold Store.upsertPg Store.find
  by_cases hany : s.any (fun x => x.hasKey r.site r.hour r.path) = true
  · rw [if_pos hany, Store.find_map_update]
    obtain ⟨x, hx, hk⟩ := List.any_eq_true.1 hany
    cases hf : List.find? (fun x => x.hasKey r.site r.hour r.path) s with
    | none => exact absurd hk (by simpa using List.find?_eq_none.1 hf x hx)
    | some y =>
      have hy : y.hasKey r.site r.hour r.path = true :=
        @List.find?_some Row (fun x => x.hasKey r.site r.hour r.path) _ _ hf
      simp [hy]
  · rw [if_neg hany]
    have hnone : List.find? (fun x => x.hasKey r.site r.hour r.path) s = none := by
      rw [List.find?_eq_none]
      intro x hx hk
      exact hany (List.any_eq_true.2 ⟨x, hx, hk⟩)
    rw [List.find?_append, hnone]
    simp [List.find?, Row.hasKey]

theorem Store.find_upsertPg_other (s : Store) (r : Row) (site : Int) (hour path : String)
    (h : ¬ (r.site = site ∧ r.hour = hour ∧ r.path = path)) :
    (s.upsertPg r).find site hour path = s.find site hour path := by
  have hr : r.hasKey site hour path = false := by
    simpa [Row.hasKey] using h
  unfold Store.upsertPg Store.find
  by_cases hany : s.any (fun x => x.hasKey r.site r.hour r.path) = true
  · rw [if_pos hany, Store.find_map_update]
    cases hf : List.find? (fun x => x.hasKey site hour path) s with
    | none => rfl
    | some y =>
      have hy := (Row.hasKey_iff _ _ _ _).1
        (@List.find?_some Row (fun x => x.hasKey site hour path) _ _ hf)
      have : y.hasKey r.site r.hour r.path = false := by
        cases hq : y.hasKey r.site r.hour r.path
        · rfl
        · have hq' := (Row.hasKey_iff _ _ _ _).1 hq
          exact absurd ⟨hq'.1.symm.trans hy.1, hq'.2.1.symm.trans hy.2.1,
            hq'.2.2.symm.trans hy.2.2⟩ h
      simp [this]
  · rw [if_neg hany]
    simp [List.find?_append, hr]

theorem Store.mem_upsertPg (s : Store) (r x : Row) (h : x ∈ s.upsertPg r) :
    x ∈ s ∨ (x.total = r.total ∧ x.totalUnique = r.totalUnique) := by
  unfold Store.upsertPg at h
  split_ifs at h with hany
  · obtain ⟨y, hy, hxy⟩ := List.mem_map.1 h
    split_ifs at hxy with hk
    · right; subst hxy; exact ⟨rfl, rfl⟩
    · left; subst hxy; exact hy
  · rcases List.mem_append.1 h with h | h
    · exact Or.inl h
    · right
      have : x = r := by simpa using h
      subst this; exact ⟨rfl, rfl⟩

theorem Store.mem_upsertSqlite (s : Store) (r x : Row) (h : x ∈ s.upsertSqlite r) :
    x ∈ s ∨ (x.total = r.total ∧ x.totalUnique = r.totalUnique) := by
  unfold Store.upsertSqlite at h
  rcases List.mem_append.1 h with h | h
  · exact Or.inl (List.mem_of_mem_filter h)
  · right
    have : x = r := by simpa using h
    subst this; exact ⟨rfl, rfl⟩

/-! ## Lemmas: the write loop -/

theorem writtenRow_congr (pg : Bool) (s s' : Store) (site : Int) (v : gt)
    (h : s'.find site v.hour v.path = s.find site v.hour v.path) :
    writtenRow pg s' site v = writtenRow pg s site v := by
  unfold writtenRow
  rw [h]

theorem find_upsert_same (pg : Bool) (s : Store) (site : Int) (v : gt) :
    (if pg then s.upsertPg (v.row site) else s.upsertSqlite (v.row site)).find
      site v.hour v.path = some (writtenRow pg s site v) := by
  cases pg
  · exact Store.find_upsertSqlite_same s (v.row site)
  · exact Store.find_upsertPg_same s (v.row site)

theorem find_upsert_other (pg : Bool) (s : Store) (site : Int) (v : gt) (site' : Int)
    (hour path : String) (h : ¬ (site = site' ∧ v.hour = hour ∧ v.path = path)) :
    (if pg then s.upsertPg (v.row site) else s.upsertSqlite (v.row site)).find
      site' hour path = s.find site' hour path := by
  cases pg
  · exact Store.find_upsertSqlite_other s (v.row site) site' hour path h
  · exact Store.find_upsertPg_other s (v.row site) site' hour path h

theorem writeLoop_ok (pg : Bool) (f : Faults) (site : Int) :
    ∀ (gs : List gt) (c : Cache) (s : Store) (c' : Cache) (s' : Store),
      (gs.map (fun v => v.hour ++ v.path)).Nodup →
      writeLoop pg f site gs c s = (c', .ok s') →
      (∀ v ∈ gs, s'.find site v.hour v.path = some (writtenRow pg s site v)) ∧
      (∀ (site' : Int) (hour path : String),
        (∀ v ∈ gs, ¬ (site = site' ∧ v.hour = hour ∧ v.path = path)) →
          s'.find site' hour path = s.find site' hour path) ∧
      (∀ v ∈ gs, c'.Get (cacheKey site v.hour v.path) = some ⟨v.total, v.totalUnique⟩) ∧
      (∀ K, (∀ v ∈ gs, cacheKey site v.hour v.path ≠ K) → c'.Get K = c.Get K) := by
  intro gs
  induction gs with
  | nil =>
    intro c s c' s' _ h
    simp only [writeLoop, Prod.mk.injEq, Except.ok.injEq] at h
    obtain ⟨rfl, rfl⟩ := h
    simp
  | cons v rest ih =>
    intro c s c' s' hnd h
    simp only [List.map_cons, List.nodup_cons] at hnd
    obtain ⟨hv, hnd'⟩ := hnd
    unfold writeLoop at h
    cases hex : f.exec (v.row site) with
    | some err => simp [hex] at h
    | none =>
      simp only [hex] at h
      obtain ⟨i1, i2, i3, i4⟩ := ih _ _ c' s' hnd' h
      have hdiff : ∀ v' ∈ rest, v'.hour ++ v'.path ≠ v.hour ++ v.path := by
        intro v' hv' heq
        exact hv (List.mem_map.2 ⟨v', hv', heq⟩)
      have hdiff' : ∀ v' ∈ rest, ¬ (site = site ∧ v'.hour = v.hour ∧ v'.path = v.path) := by
        intro v' hv' ⟨_, a, b⟩
        exact hdiff v' hv' (by rw [a, b])
      refine ⟨?_, ?_, ?_, ?_⟩
      · intro v' hv'
        rcases List.mem_cons.1 hv' with rfl | hv'
        · rw [i2 site v'.hour v'.path hdiff']
          exact find_upsert_same pg s site v'
        · rw [i1 v' hv']
          congr 1
          apply writtenRow_congr
          apply find_upsert_other
          rintro ⟨_, a, b⟩
          exact hdiff v' hv' (by rw [a, b])
      · intro site' hour path hall
        rw [i2 site' hour path (fun v' hv' => hall v' (List.mem_cons_of_mem _ hv'))]
        exact find_upsert_other pg s site v site' hour path (hall v (List.mem_cons_self _ _))
      · intro v' hv'
        rcases List.mem_cons.1 hv' with rfl | hv'
        · rw [i4 _ (fun w hw heq => hdiff w hw ((cacheKey_eq_iff _ _ _ _ _).1 heq))]
          simp [Cache.Get_SetDefault]
        · exact i3 v' hv'
      · intro K hall
        rw [i4 K (fun v' hv' => hall v' (List.mem_cons_of_mem _ hv'))]
        rw [Cache.Get_SetDefault, if_neg (hall v (List.mem_cons_self _ _))]

theorem writeLoop_cache_entries (pg : Bool) (f : Faults) (site : Int) :
    ∀ (gs : List gt) (c : Cache) (s : Store) (K : String) (e : cacheHitCountEntry),
      (writeLoop pg f site gs c s).1.Get K = some e →
        c.Get K = some e ∨ ∃ v ∈ gs, e = ⟨v.total, v.totalUnique⟩ := by
  intro gs
  induction gs with
  | nil => intro c s K e h; exact Or.inl h
  | cons v rest ih =>
    intro c s K e h
    unfold writeLoop at h
    have hset : ∀ e', (c.SetDefault (cacheKey site v.hour v.path) ⟨v.total, v.totalUnique⟩).Get K
        = some e' → c.Get K = some e' ∨ ∃ v' ∈ v :: rest, e' = ⟨v'.total, v'.totalUnique⟩ := by
      intro e' he'
      rw [Cache.Get_SetDefault] at he'
      split_ifs at he' with hk
      · right
        exact ⟨v, List.mem_cons_self _ _, (Option.some.inj he').symm⟩
      · exact Or.inl he'
    cases hex : f.exec (v.row site) with
    | some err =>
      simp only [hex] at h
      exact hset e h
    | none =>
      simp only [hex] at h
      rcases ih _ _ K e h with h1 | ⟨v', hv', he⟩
      · exact hset e h1
      · exact Or.inr ⟨v', List.mem_cons_of_mem _ hv', he⟩

theorem writeLoop_rows (pg : Bool) (f : Faults) (site : Int) :
    ∀ (gs : List gt) (c : Cache) (s : Store) (c' : Cache) (s' : Store),
      writeLoop pg f site gs c s = (c', .ok s') →
      ∀ x ∈ s', x ∈ s ∨ ∃ v ∈ gs, x.total = v.total ∧ x.totalUnique = v.totalUnique := by
  intro gs
  induction gs with
  | nil =>
    intro c s c' s' h x hx
    simp only [writeLoop, Prod.mk.injEq, Except.ok.injEq] at h
    obtain ⟨_, rfl⟩ := h
    exact Or.inl hx
  | cons v rest ih =>
    intro c s c' s' h x hx
    unfold writeLoop at h
    cases hex : f.exec (v.row site) with
    | some err => simp [hex] at h
    | none =>
      simp only [hex] at h
      rcases ih _ _ c' s' h x hx with h1 | ⟨v', hv', he⟩
      · have : x ∈ s ∨ (x.total = (v.row site).total ∧ x.totalUnique = (v.row site).totalUnique) := by
          cases pg
          · exact Store.mem_upsertSqlite s _ x h1
          · exact Store.mem_upsertPg s _ x h1
        rcases this with h2 | h2
        · exact Or.inl h2
        · exact Or.inr ⟨v, List.mem_cons_self _ _, h2⟩
      · exact Or.inr ⟨v', List.mem_cons_of_mem _ hv', he⟩

/-! ## Lemmas: the whole call -/

theorem updateHitCounts_ok_inv (pg : Bool) (f : Faults) (ro : RangeOrder (String × gt))
    (site : Int) (hits : List Hit) (st st' : DB)
    (h : updateHitCounts pg f ro site hits st = (none, st')) :
    ∃ g, groupLoop f st.cache st.store [] hits = .ok g ∧
      writeLoop pg f site ((ro.pick g).map Prod.snd) st.cache st.store
        = (st'.cache, .ok st'.store) := by
  unfold updateHitCounts TX at h
  cases hg : groupLoop f st.cache st.store [] hits with
  | error err => simp [hg] at h
  | ok g =>
    refine ⟨g, rfl, ?_⟩
    simp only [hg] at h
    cases hw : writeLoop pg f site ((ro.pick g).map Prod.snd) st.cache st.store with
    | mk c res =>
      cases res with
      | error err => simp [hw] at h
      | ok s' =>
        simp only [hw, Prod.mk.injEq, true_and] at h
        subst h
        rfl

theorem updateHitCounts_err_inv (pg : Bool) (f : Faults) (ro : RangeOrder (String × gt))
    (site : Int) (hits : List Hit) (st st' : DB) (e : Error)
    (h : updateHitCounts pg f ro site hits st = (some e, st')) :
    st'.store = st.store ∧
      (st'.cache = st.cache ∨
        ∃ g, groupLoop f st.cache st.store [] hits = .ok g ∧
          st'.cache = (writeLoop pg f site ((ro.pick g).map Prod.snd) st.cache st.store).1) := by
  unfold updateHitCounts TX at h
  cases hg : groupLoop f st.cache st.store [] hits with
  | error err =>
    simp only [hg, Prod.mk.injEq, Option.some.injEq] at h
    obtain ⟨_, rfl⟩ := h
    exact ⟨rfl, Or.inl rfl⟩
  | ok g =>
    simp only [hg] at h
    cases hw : writeLoop pg f site ((ro.pick g).map Prod.snd) st.cache st.store with
    | mk c res =>
      cases res with
      | error err =>
        simp only [hw, Prod.mk.injEq, Option.some.injEq] at h
        obtain ⟨_, rfl⟩ := h
        exact ⟨rfl, Or.inr ⟨g, rfl, by rw [hw]⟩⟩
      | ok s' => simp [hw] at h

/-! ## Lemmas: the grouping loop -/

theorem keyHits_append_single (done : List Hit) (h : Hit) (k : String) :
    keyHits (done ++ [h]) k =
      keyHits done k ++ (if ¬ h.Bot > 0 ∧ h.CreatedAt.Format ++ h.Path = k then [h] else []) := by
  unfold keyHits
  rw [List.filter_append]
  congr 1
  by_cases hc : ¬ h.Bot > 0 ∧ h.CreatedAt.Format ++ h.Path = k
  · simp [List.filter, hc]
  · rw [if_neg hc]
    simp only [List.filter, decide_eq_false hc]

theorem lastTitle_append_single (l : List Hit) (h : Hit) :
    lastTitle (l ++ [h]) = if h.Title ≠ "" then h.Title else lastTitle l := by
  unfold lastTitle
  rw [List.filter_append]
  by_cases hc : h.Title ≠ ""
  · simp [List.filter, hc]
  · rw [if_neg hc]
    simp only [List.filter, decide_eq_false hc, List.append_nil]

theorem uniqueHits_append_single (l : List Hit) (h : Hit) :
    (uniqueHits (l ++ [h])).length =
      (uniqueHits l).length + (if h.FirstVisit then 1 else 0) := by
  unfold uniqueHits
  rw [List.filter_append]
  cases hf : h.FirstVisit <;> simp [List.filter, hf]

theorem storedCounts_cases (s : Store) (site : Int) (hour path : String) :
    storedCounts s site hour path = (0, 0) ∨
      ∃ r ∈ s, storedCounts s site hour path = (r.total, r.totalUnique) := by
  unfold storedCounts
  cases hf : s.find site hour path with
  | none => exact Or.inl rfl
  | some r => exact Or.inr ⟨r, (Store.find_some_hasKey s site hour path r hf).1, rfl⟩

theorem existing_of_mirror (f : Faults) (site : Int) (st : DB) (hm : CacheMirrors site st)
    (t : Time) (p : String) (a b : Int)
    (h : existingHitCounts f st.cache st.store site t.Format p = .ok (a, b)) :
    storedCounts st.store site t.Format p = (a, b) := by
  unfold existingHitCounts at h
  cases hc : st.cache.Get (cacheKey site t.Format p) with
  | some x =>
    simp only [hc, Except.ok.injEq, Prod.mk.injEq] at h
    rw [hm t p x hc, h.1, h.2]
  | none =>
    simp only [hc] at h
    cases hq : f.query site t.Format p with
    | some err => simp [hq] at h
    | none =>
      simp only [hq] at h
      unfold storedCounts
      cases hf : st.store.find site t.Format p with
      | none => simpa [hf] using h
      | some r => simpa [hf] using h

theorem groupStep_skip (f : Faults) (c : Cache) (s : Store) (g : Grouped) (h : Hit)
    (hb : h.Bot > 0) : groupStep f c s g h = .ok g := by
  unfold groupStep
  rw [if_pos hb]

/-- What one iteration does with a hit that passes the guard. -/
theorem groupStep_ok (f : Faults) (c : Cache) (s : Store) (g g' : Grouped) (h : Hit)
    (hb : ¬ h.Bot > 0) (hs : groupStep f c s g h = .ok g') :
    ∃ v0 v' : gt,
      g' = g.set (h.CreatedAt.Format ++ h.Path) v' ∧
      v'.total = wrapInt (v0.total + 1) ∧
      v'.totalUnique
        = (if h.FirstVisit then wrapInt (v0.totalUnique + 1) else v0.totalUnique) ∧
      v'.title = (if h.Title ≠ "" then h.Title else v0.title) ∧
      v'.hour = v0.hour ∧ v'.path = v0.path ∧
      v0.title = (g.get (h.CreatedAt.Format ++ h.Path)).title ∧
      (((g.get (h.CreatedAt.Format ++ h.Path)).total ≠ 0 ∧
          v0 = g.get (h.CreatedAt.Format ++ h.Path)) ∨
        ((g.get (h.CreatedAt.Format ++ h.Path)).total = 0 ∧
          existingHitCounts f c s h.Site h.CreatedAt.Format h.Path
            = .ok (v0.total, v0.totalUnique) ∧
          v0.hour = h.CreatedAt.Format ∧ v0.path = h.Path)) := by
  unfold groupStep at hs
  rw [if_neg hb] at hs
  simp only at hs
  have fin : ∀ v0 : gt, Except.ok (g.set (h.CreatedAt.Format ++ h.Path)
      (if h.FirstVisit = true then
        { (if h.Title ≠ "" then { v0 with title := h.Title } else v0) with
          total := wrapInt
            ((if h.Title ≠ "" then { v0 with title := h.Title } else v0).total + 1),
          totalUnique := wrapInt
            ((if h.Title ≠ "" then { v0 with title := h.Title } else v0).totalUnique + 1) }
       else
        { (if h.Title ≠ "" then { v0 with title := h.Title } else v0) with
          total := wrapInt
            ((if h.Title ≠ "" then { v0 with title := h.Title } else v0).total + 1) }))
        = (Except.ok g' : Except Error Grouped) →
      ∃ v' : gt, g' = g.set (h.CreatedAt.Format ++ h.Path) v' ∧
        v'.total = wrapInt (v0.total + 1) ∧
        v'.totalUnique
          = (if h.FirstVisit then wrapInt (v0.totalUnique + 1) else v0.totalUnique) ∧
        v'.title = (if h.Title ≠ "" then h.Title else v0.title) ∧
        v'.hour = v0.hour ∧ v'.path = v0.path := by
    intro v0 heq
    refine ⟨_, (Except.ok.inj heq).symm, ?_⟩
    by_cases ht : h.Title ≠ "" <;> cases hf : h.FirstVisit <;> simp [ht]
  by_cases h0 : (g.get (h.CreatedAt.Format ++ h.Path)).total = 0
  · rw [if_pos h0] at hs
    cases he : existingHitCounts f c s h.Site h.CreatedAt.Format h.Path with
    | error err => simp [he] at hs
    | ok p =>
      obtain ⟨t, tu⟩ := p
      simp only [he] at hs
      obtain ⟨v', h1, h2, h3, h4, h5, h6⟩ := fin _ hs
      exact ⟨_, v', h1, h2, h3, h4, h5, h6, rfl, Or.inr ⟨h0, rfl, rfl, rfl⟩⟩
  · rw [if_neg h0] at hs
    simp only at hs
    obtain ⟨v', h1, h2, h3, h4, h5, h6⟩ := fin _ hs
    exact ⟨_, v', h1, h2, h3, h4, h5, h6, rfl, Or.inl ⟨h0, rfl⟩⟩

/-- Induction principle for the grouping loop. -/
theorem groupLoop_induct (f : Faults) (c : Cache) (s : Store) (P : Grouped → List Hit → Prop)
    (hstep : ∀ g done h g', P g done → groupStep f c s g h = .ok g' → P g' (done ++ [h])) :
    ∀ (rest : List Hit) (g : Grouped) (done : List Hit) (g' : Grouped),
      P g done → groupLoop f c s g rest = .ok g' → P g' (done ++ rest) := by
  intro rest
  induction rest with
  | nil =>
    intro g done g' hp hl
    simp only [groupLoop, Except.ok.injEq] at hl
    subst hl
    simpa using hp
  | cons h rest ih =>
    intro g done g' hp hl
    unfold groupLoop at hl
    cases hs : groupStep f c s g h with
    | error err => simp [hs] at hl
    | ok g1 =>
      simp only [hs] at hl
      have := ih g1 (done ++ [h]) g' (hstep g done h g1 hp hs) hl
      simpa using this

theorem Grouped.get_of_find?_some (g : Grouped) (k : String) (w : gt)
    (h : g.find? k = some w) : g.get k = w := by
  rw [Grouped.get_eq, h]; rfl

theorem Grouped.get_of_find?_none (g : Grouped) (k : String)
    (h : g.find? k = none) : g.get k = gt.zero := by
  rw [Grouped.get_eq, h]; rfl

theorem GroupShape.get_title (g : Grouped) (done : List Hit) (hp : GroupShape g done)
    (k : String) : (g.get k).title = lastTitle (keyHits done k) := by
  cases hf : g.find? k with
  | none =>
    rw [Grouped.get_of_find?_none g k hf, hp.2.2 k hf]
    rfl
  | some w =>
    rw [Grouped.get_of_find?_some g k w hf]
    exact (hp.2.1 k w hf).2.2.2

theorem GroupShape_step (f : Faults) (c : Cache) (s : Store) (g : Grouped) (done : List Hit)
    (h : Hit) (g' : Grouped) (hp : GroupShape g done)
    (hs : groupStep f c s g h = .ok g') : GroupShape g' (done ++ [h]) := by
  by_cases hb : h.Bot > 0
  · rw [groupStep_skip f c s g h hb] at hs
    cases hs
    have hk : ∀ k, keyHits (done ++ [h]) k = keyHits done k := by
      intro k
      rw [keyHits_append_single, if_neg (fun hc => hc.1 hb), List.append_nil]
    refine ⟨hp.1, ?_, ?_⟩
    · intro k v hf
      obtain ⟨⟨h', hm, hrest⟩, a, b, c'⟩ := hp.2.1 k v hf
      rw [hk]
      exact ⟨⟨h', List.mem_append_left _ hm, hrest⟩, a, b, c'⟩
    · intro k hf
      rw [hk]; exact hp.2.2 k hf
  · obtain ⟨v0, v', hg', _, _, htitle, hhour, hpath, h0title, hcase⟩ :=
      groupStep_ok f c s g g' h hb hs
    subst hg'
    refine ⟨Grouped.nodup_set g _ v' hp.1, ?_, ?_⟩
    · intro k v hf
      rw [Grouped.find?_set] at hf
      by_cases hk : h.CreatedAt.Format ++ h.Path = k
      · rw [if_pos hk] at hf
        cases hf
        subst hk
        have hkh : keyHits (done ++ [h]) (h.CreatedAt.Format ++ h.Path) =
            keyHits done (h.CreatedAt.Format ++ h.Path) ++ [h] := by
          rw [keyHits_append_single, if_pos ⟨hb, rfl⟩]
        have htl : v'.title = lastTitle (keyHits (done ++ [h]) (h.CreatedAt.Format ++ h.Path)) := by
          rw [hkh, lastTitle_append_single, htitle, h0title, GroupShape.get_title g done hp]
        have hne : keyHits (done ++ [h]) (h.CreatedAt.Format ++ h.Path) ≠ [] := by
          rw [hkh]; simp
        rcases hcase with ⟨hne0, hv0⟩ | ⟨_, _, hh, hpth⟩
        · cases hfind : g.find? (h.CreatedAt.Format ++ h.Path) with
          | none =>
            rw [Grouped.get_of_find?_none g _ hfind] at hne0
            exact absurd rfl hne0
          | some w =>
            rw [Grouped.get_of_find?_some g _ w hfind] at hv0
            subst hv0
            obtain ⟨⟨h', hm, hrest⟩, a, _, _⟩ := hp.2.1 _ v0 hfind
            refine ⟨⟨h', List.mem_append_left _ hm, ?_⟩, ?_, hne, htl⟩
            · rw [hhour, hpath]; exact hrest
            · rw [hhour, hpath]; exact a
        · refine ⟨⟨h, by simp, hb, ?_, ?_⟩, ?_, hne, htl⟩
          · rw [hhour, hh]
          · rw [hpath, hpth]
          · rw [hhour, hpath, hh, hpth]
      · rw [if_neg hk] at hf
        obtain ⟨⟨h', hm, hrest⟩, a, b, c'⟩ := hp.2.1 k v hf
        have hkk : keyHits (done ++ [h]) k = keyHits done k := by
          rw [keyHits_append_single, if_neg (fun hc => hk hc.2), List.append_nil]
        rw [hkk]
        exact ⟨⟨h', List.mem_append_left _ hm, hrest⟩, a, b, c'⟩
    · intro k hf
      rw [Grouped.find?_set] at hf
      by_cases hk : h.CreatedAt.Format ++ h.Path = k
      · rw [if_pos hk] at hf; cases hf
      · rw [if_neg hk] at hf
        rw [keyHits_append_single, if_neg (fun hc => hk hc.2), List.append_nil]
        exact hp.2.2 k hf

theorem groupLoop_shape (f : Faults) (c : Cache) (s : Store) (hits : List Hit) (g : Grouped)
    (h : groupLoop f c s [] hits = .ok g) : GroupShape g hits := by
  have := groupLoop_induct f c s GroupShape
    (fun g done h g' hp hs => GroupShape_step f c s g done h g' hp hs) hits [] [] g
    ⟨by simp, by intro k v hf; simp [Grouped.find?] at hf, by intro k _; rfl⟩ h
  simpa using this

theorem GroupCounts_step (f : Faults) (site : Int) (st : DB) (hm : CacheMirrors site st)
    (N : Nat) (hz : NoZeroCrossing site N st.store) (g : Grouped) (done : List Hit) (h : Hit)
    (g' : Grouped) (hlen : done.length + 1 ≤ N)
    (hsite : h.Site = site) (hshape : GroupShape g done)
    (hp : GroupCounts site st.store g done)
    (hs : groupStep f st.cache st.store g h = .ok g') :
    GroupCounts site st.store g' (done ++ [h]) := by
  by_cases hb : h.Bot > 0
  · rw [groupStep_skip f _ _ g h hb] at hs
    cases hs
    intro k v hf
    rw [keyHits_append_single, if_neg (fun hc => hc.1 hb), List.append_nil]
    exact hp k v hf
  · obtain ⟨v0, v', hg', htot, huni, _, hhour, hpath, _, hcase⟩ :=
      groupStep_ok f _ _ g g' h hb hs
    subst hg'
    intro k v hf
    rw [Grouped.find?_set] at hf
    by_cases hk : h.CreatedAt.Format ++ h.Path = k
    · rw [if_pos hk] at hf
      cases hf
      subst hk
      have hkh : keyHits (done ++ [h]) (h.CreatedAt.Format ++ h.Path) =
          keyHits done (h.CreatedAt.Format ++ h.Path) ++ [h] := by
        rw [keyHits_append_single, if_pos ⟨hb, rfl⟩]
      rw [hkh, uniqueHits_append_single, htot, huni, hhour, hpath,
        List.length_append, List.length_singleton]
      have hbump : ∀ (b bu : Int) (n m : Nat), v0.total = wrapAdd b n →
          v0.totalUnique = wrapAdd bu m →
          wrapInt (v0.total + 1) = wrapAdd b (n + 1) ∧
          (if h.FirstVisit then wrapInt (v0.totalUnique + 1) else v0.totalUnique)
            = wrapAdd bu (m + (if h.FirstVisit then 1 else 0)) := by
        intro b bu n m e1 e2
        rw [e1, e2]
        refine ⟨wrapAdd_succ b n, ?_⟩
        cases h.FirstVisit
        · simp
        · simpa using wrapAdd_succ bu m
      rcases hcase with ⟨hne0, hv0⟩ | ⟨h0, hex, hh, hpth⟩
      · cases hfind : g.find? (h.CreatedAt.Format ++ h.Path) with
        | none =>
          rw [Grouped.get_of_find?_none g _ hfind] at hne0
          exact absurd rfl hne0
        | some w =>
          rw [Grouped.get_of_find?_some g _ w hfind] at hv0
          subst hv0
          obtain ⟨a, b⟩ := hp _ v0 hfind
          exact hbump _ _ _ _ a b
      · have hnone : g.find? (h.CreatedAt.Format ++ h.Path) = none := by
          cases hfind : g.find? (h.CreatedAt.Format ++ h.Path) with
          | none => rfl
          | some w =>
            exfalso
            rw [Grouped.get_of_find?_some g _ w hfind] at h0
            obtain ⟨a, _⟩ := hp _ w hfind
            obtain ⟨⟨h', _, _, hwh, _⟩, _, hne, _⟩ := hshape.2.1 _ w hfind
            have hpos : 0 < (keyHits done (h.CreatedAt.Format ++ h.Path)).length :=
              List.length_pos.2 hne
            have hle : (keyHits done (h.CreatedAt.Format ++ h.Path)).length ≤ done.length :=
              List.length_filter_le _ _
            rw [hwh] at a
            exact hz h'.CreatedAt w.path _ hpos (by omega) (by rw [← a]; exact h0)
        have hempty := hshape.2.2 _ hnone
        rw [hsite] at hex
        have hbase := existing_of_mirror f site st hm h.CreatedAt h.Path _ _ hex
        rw [hempty, hh, hpth, hbase]
        exact hbump v0.total v0.totalUnique 0 0 rfl rfl
    · rw [if_neg hk] at hf
      rw [keyHits_append_single, if_neg (fun hc => hk hc.2), List.append_nil]
      exact hp k v hf

theorem groupLoop_counts (f : Faults) (site : Int) (st : DB) (hm : CacheMirrors site st)
    (hits : List Hit) (hz : NoZeroCrossing site hits.length st.store)
    (hsite : ∀ h ∈ hits, h.Site = site)
    (g : Grouped) (h : groupLoop f st.cache st.store [] hits = .ok g) :
    GroupShape g hits ∧ GroupCounts site st.store g hits := by
  have := groupLoop_induct f st.cache st.store
    (fun g done => (∀ h ∈ done, h.Site = site) → done.length ≤ hits.length →
      GroupShape g done ∧ GroupCounts site st.store g done)
    (fun g done h g' hp hs hall hlen => by
      have hd : ∀ x ∈ done, x.Site = site := fun x hx => hall x (List.mem_append_left _ hx)
      have hh : h.Site = site := hall h (by simp)
      have hl : done.length + 1 ≤ hits.length := by simpa using hlen
      obtain ⟨p1, p2⟩ := hp hd (by omega)
      exact ⟨GroupShape_step f _ _ g done h g' p1 hs,
        GroupCounts_step f site st hm hits.length hz g done h g' hl hh p1 p2 hs⟩)
    hits [] [] g
    (fun _ _ => ⟨⟨by simp, by intro k v hf; simp [Grouped.find?] at hf, by intro k _; rfl⟩,
      by intro k v hf; simp [Grouped.find?] at hf⟩) h
  exact this (by simpa using hsite) (by simp)

/-! ## Lemmas: what a call leaves behind -/

theorem writtenRow_total (pg : Bool) (s : Store) (site : Int) (v : gt) :
    (writtenRow pg s site v).total = v.total ∧
      (writtenRow pg s site v).totalUnique = v.totalUnique := by
  unfold writtenRow
  cases pg
  · exact ⟨rfl, rfl⟩
  · cases s.find site v.hour v.path <;> exact ⟨rfl, rfl⟩

/-- The groups visited by the second loop: distinct map keys, and exactly the
values of the map. -/
theorem picked_groups (ro : RangeOrder (String × gt)) (g : Grouped) (hits : List Hit)
    (hp : GroupShape g hits) :
    (((ro.pick g).map Prod.snd).map (fun v => v.hour ++ v.path)).Nodup ∧
    (∀ v ∈ (ro.pick g).map Prod.snd, g.find? (v.hour ++ v.path) = some v) ∧
    (∀ k v, g.find? k = some v → v ∈ (ro.pick g).map Prod.snd) := by
  have hkey : ∀ p ∈ g, p.2.hour ++ p.2.path = p.1 := by
    intro p hpm
    have := Grouped.find?_of_mem g hp.1 p.1 p.2 hpm
    exact (hp.2.1 p.1 p.2 this).2.1.symm
  refine ⟨?_, ?_, ?_⟩
  · rw [List.map_map]
    have h1 : ((ro.pick g).map ((fun v : gt => v.hour ++ v.path) ∘ Prod.snd)).Perm
        (g.map ((fun v : gt => v.hour ++ v.path) ∘ Prod.snd)) := (ro.perm g).map _
    rw [h1.nodup_iff]
    have h2 : g.map ((fun v : gt => v.hour ++ v.path) ∘ Prod.snd) = g.map Prod.fst :=
      List.map_congr_left (fun p hpm => hkey p hpm)
    rw [h2]
    exact hp.1
  · intro v hv
    obtain ⟨p, hpm, rfl⟩ := List.mem_map.1 hv
    have hpg : p ∈ g := (ro.perm g).mem_iff.1 hpm
    rw [hkey p hpg]
    exact Grouped.find?_of_mem g hp.1 p.1 p.2 hpg
  · intro k v hf
    have hm := Grouped.mem_of_find? g k v hf
    exact List.mem_map.2 ⟨(k, v), (ro.perm g).mem_iff.2 hm, rfl⟩

/-- A group filed under the key of bucket `(t.Format, p)` carries that hour
and that path. -/
theorem GroupShape.bucket_of_key (g : Grouped) (hits : List Hit) (hp : GroupShape g hits)
    (t : Time) (p : String) (v : gt) (hf : g.find? (t.Format ++ p) = some v) :
    v.hour = t.Format ∧ v.path = p := by
  obtain ⟨⟨h', _, _, hh, hpth⟩, hk, _, _⟩ := hp.2.1 _ v hf
  rw [hh, hpth] at hk
  obtain ⟨a, b⟩ := Format_append_inj _ _ _ _ hk
  exact ⟨by rw [hh, a], by rw [hpth, b]⟩

/-- After a successful call, the row of every bucket of the context site whose
key is in the map is the written row, and every other bucket is untouched. -/
theorem updateHitCounts_find (pg : Bool) (f : Faults) (ro : RangeOrder (String × gt))
    (site : Int) (hits : List Hit) (st st' : DB)
    (hok : updateHitCounts pg f ro site hits st = (none, st')) :
    ∃ g, groupLoop f st.cache st.store [] hits = .ok g ∧ GroupShape g hits ∧
      ∀ (t : Time) (p : String),
        (∀ v, g.find? (t.Format ++ p) = some v →
          v.hour = t.Format ∧ v.path = p ∧
          st'.store.find site t.Format p = some (writtenRow pg st.store site v) ∧
          st'.cache.Get (cacheKey site t.Format p) = some ⟨v.total, v.totalUnique⟩) ∧
        (g.find? (t.Format ++ p) = none →
          st'.store.find site t.Format p = st.store.find site t.Format p ∧
          st'.cache.Get (cacheKey site t.Format p) = st.cache.Get (cacheKey site t.Format p)) := by
  obtain ⟨g, hg, hw⟩ := updateHitCounts_ok_inv pg f ro site hits st st' hok
  have hp := groupLoop_shape f _ _ hits g hg
  obtain ⟨hnd, hmem, hall⟩ := picked_groups ro g hits hp
  obtain ⟨w1, w2, w3, w4⟩ := writeLoop_ok pg f site _ _ _ _ _ hnd hw
  refine ⟨g, hg, hp, ?_⟩
  intro t p
  constructor
  · intro v hf
    obtain ⟨a, b⟩ := GroupShape.bucket_of_key g hits hp t p v hf
    have hv := hall _ v hf
    refine ⟨a, b, ?_, ?_⟩
    · have := w1 v hv
      rwa [a, b] at this
    · have := w3 v hv
      rwa [a, b] at this
  · intro hf
    constructor
    · apply w2
      rintro v hv ⟨_, a, b⟩
      have := hmem v hv
      rw [a, b, hf] at this
      cases this
    · apply w4
      intro v hv heq
      have := hmem v hv
      rw [(cacheKey_eq_iff _ _ _ _ _).1 heq, hf] at this
      cases this

/-- Counts after a successful call on a state whose cache mirrors the table:
each counter has been incremented once per hit, in Go `int` arithmetic. -/
theorem stored_counts_wrapped (pg : Bool) (f : Faults) (ro : RangeOrder (String × gt))
    (site : Int) (hits : List Hit) (st st' : DB)
    (hsite : ∀ h ∈ hits, h.Site = site) (hm : CacheMirrors site st)
    (hz : NoZeroCrossing site hits.length st.store)
    (hok : updateHitCounts pg f ro site hits st = (none, st')) (t : Time) (p : String) :
    storedCounts st'.store site t.Format p =
      (wrapAdd (storedCounts st.store site t.Format p).1 (bucketHits hits t.Format p).length,
       wrapAdd (storedCounts st.store site t.Format p).2
         (uniqueHits (bucketHits hits t.Format p)).length) := by
  obtain ⟨g, hg, hp, hfind⟩ := updateHitCounts_find pg f ro site hits st st' hok
  obtain ⟨_, hc⟩ := groupLoop_counts f site st hm hits hz hsite g hg
  obtain ⟨h1, h2⟩ := hfind t p
  rw [← keyHits_eq_bucketHits]
  cases hf : g.find? (t.Format ++ p) with
  | some v =>
    obtain ⟨a, b, hrow, _⟩ := h1 v hf
    obtain ⟨c1, c2⟩ := hc _ v hf
    rw [a, b] at c1 c2
    have hl : storedCounts st'.store site t.Format p = (v.total, v.totalUnique) := by
      unfold storedCounts
      rw [hrow]
      simp only [(writtenRow_total pg st.store site v).1, (writtenRow_total pg st.store site v).2]
    rw [hl, c1, c2]
  | none =>
    obtain ⟨hrow, _⟩ := h2 hf
    have hl : storedCounts st'.store site t.Format p = storedCounts st.store site t.Format p := by
      unfold storedCounts
      rw [hrow]
    rw [hl, hp.2.2 _ hf]
    simp [uniqueHits, wrapAdd]

theorem noZeroCrossing_of_nonneg (site : Int) (n : Nat) (s : Store) (hn : TotalsNonneg s)
    (hr : TotalsInRange s) (hlen : (n : Int) ≤ maxInt) : NoZeroCrossing site n s := by
  intro t p k hk1 hk2
  have hk : (k : Int) ≤ maxInt := by
    have : (k : Int) ≤ (n : Int) := by exact_mod_cast hk2
    omega
  rcases storedCounts_cases s site t.Format p with h0 | ⟨r, hr', h0⟩
  · rw [h0]
    exact wrapAdd_ne_zero 0 k (le_refl _) (by unfold maxInt; omega) hk1 hk
  · rw [h0]
    exact wrapAdd_ne_zero r.total k (hn r hr') (hr r hr') hk1 hk

/-- A successful call keeps the cache a mirror of the table. -/
theorem updateHitCounts_mirror (pg : Bool) (f : Faults) (ro : RangeOrder (String × gt))
    (site : Int) (hits : List Hit) (st st' : DB) (hm : CacheMirrors site st)
    (hok : updateHitCounts pg f ro site hits st = (none, st')) : CacheMirrors site st' := by
  obtain ⟨g, _, _, hfind⟩ := updateHitCounts_find pg f ro site hits st st' hok
  intro t p e he
  obtain ⟨h1, h2⟩ := hfind t p
  cases hf : g.find? (t.Format ++ p) with
  | some v =>
    obtain ⟨_, _, hrow, hcache⟩ := h1 v hf
    rw [hcache] at he
    cases he
    unfold storedCounts
    rw [hrow]
    simp only [(writtenRow_total pg st.store site v).1, (writtenRow_total pg st.store site v).2]
  | none =>
    obtain ⟨hrow, hcache⟩ := h2 hf
    rw [hcache] at he
    have := hm t p e he
    unfold storedCounts at this ⊢
    rw [hrow]
    exact this

theorem existing_bounded (f : Faults) (st : DB) (hi : CountersInv st) (B : Int)
    (hb : TotalsBelow B st) (site : Int) (hour path : String) (a b : Int)
    (h : existingHitCounts f st.cache st.store site hour path = .ok (a, b)) :
    b ≤ a ∧ 0 ≤ b ∧ a ≤ B := by
  unfold existingHitCounts at h
  cases hc : st.cache.Get (cacheKey site hour path) with
  | some x =>
    simp only [hc, Except.ok.injEq, Prod.mk.injEq] at h
    rw [← h.1, ← h.2]
    exact ⟨(hi.2 _ x hc).1, (hi.2 _ x hc).2, hb.2.2 _ x hc⟩
  | none =>
    simp only [hc] at h
    cases hq : f.query site hour path with
    | some err => simp [hq] at h
    | none =>
      simp only [hq] at h
      cases hf : st.store.find site hour path with
      | none =>
        simp only [hf, Except.ok.injEq, Prod.mk.injEq] at h
        rw [← h.1, ← h.2]
        exact ⟨le_refl _, le_refl _, hb.1⟩
      | some r =>
        simp only [hf, Except.ok.injEq, Prod.mk.injEq] at h
        rw [← h.1, ← h.2]
        have hr := (Store.find_some_hasKey _ _ _ _ r hf).1
        exact ⟨(hi.1 r hr).1, (hi.1 r hr).2, hb.2.1 r hr⟩

theorem GroupBounded_step (f : Faults) (st : DB) (hi : CountersInv st) (B : Int)
    (hb : TotalsBelow B st) (N : Nat) (hN : B + N ≤ maxInt) (g : Grouped) (done : List Hit)
    (h : Hit) (g' : Grouped) (hlen : done.length + 1 ≤ N) (hp : GroupBounded B g done)
    (hs : groupStep f st.cache st.store g h = .ok g') : GroupBounded B g' (done ++ [h]) := by
  have hweak : ∀ k v, g.find? k = some v →
      1 ≤ v.total ∧ v.total ≤ B + ((done ++ [h]).length : Nat) ∧ v.totalUnique ≤ v.total ∧
        0 ≤ v.totalUnique := by
    intro k v hf
    obtain ⟨a, b, c, d⟩ := hp k v hf
    refine ⟨a, ?_, c, d⟩
    rw [List.length_append, List.length_singleton]
    push_cast
    omega
  by_cases hbot : h.Bot > 0
  · rw [groupStep_skip f _ _ g h hbot] at hs
    cases hs
    exact hweak
  · obtain ⟨v0, v', hg', htot, huni, _, _, _, _, hcase⟩ :=
      groupStep_ok f _ _ g g' h hbot hs
    subst hg'
    intro k v hf
    rw [Grouped.find?_set] at hf
    by_cases hk : h.CreatedAt.Format ++ h.Path = k
    · rw [if_pos hk] at hf
      cases hf
      have hv0 : 0 ≤ v0.total ∧ v0.total ≤ B + done.length ∧ v0.totalUnique ≤ v0.total ∧
          0 ≤ v0.totalUnique := by
        rcases hcase with ⟨hne0, hv0⟩ | ⟨_, hex, _, _⟩
        · cases hfind : g.find? (h.CreatedAt.Format ++ h.Path) with
          | none =>
            rw [Grouped.get_of_find?_none g _ hfind] at hne0
            exact absurd rfl hne0
          | some w =>
            rw [Grouped.get_of_find?_some g _ w hfind] at hv0
            subst hv0
            obtain ⟨a, b, c, d⟩ := hp _ v0 hfind
            exact ⟨by omega, b, c, d⟩
        · obtain ⟨a, b, c⟩ := existing_bounded f st hi B hb _ _ _ _ _ hex
          have : (0 : Int) ≤ (done.length : Int) := Int.natCast_nonneg _
          exact ⟨by omega, by omega, a, b⟩
      obtain ⟨a, b, c, d⟩ := hv0
      have hl : (done.length : Int) + 1 ≤ (N : Int) := by exact_mod_cast hlen
      have hmin : minInt ≤ 0 := by unfold minInt; omega
      have e1 : wrapInt (v0.total + 1) = v0.total + 1 :=
        wrapInt_of_range _ (by omega) (by omega)
      have e2 : wrapInt (v0.totalUnique + 1) = v0.totalUnique + 1 :=
        wrapInt_of_range _ (by omega) (by omega)
      rw [htot, huni, e1, e2, List.length_append, List.length_singleton]
      push_cast
      split_ifs <;> refine ⟨?_, ?_, ?_, ?_⟩ <;> omega
    · rw [if_neg hk] at hf
      exact hweak k v hf

theorem groupLoop_bounded (f : Faults) (st : DB) (hi : CountersInv st) (B : Int)
    (hb : TotalsBelow B st) (hits : List Hit) (hN : B + hits.length ≤ maxInt)
    (g : Grouped) (h : groupLoop f st.cache st.store [] hits = .ok g) :
    GroupBounded B g hits := by
  have := groupLoop_induct f st.cache st.store
    (fun g done => done.length ≤ hits.length → GroupBounded B g done)
    (fun g done h g' hp hs hlen => by
      have hl : done.length + 1 ≤ hits.length := by simpa using hlen
      exact GroupBounded_step f st hi B hb hits.length hN g done h g' hl (hp (by omega)) hs)
    hits [] [] g
    (fun _ => by intro k v hf; simp [Grouped.find?] at hf) h
  exact this (by simp)

/-- Every call that cannot overflow, successful or not, preserves
`total ≥ total_unique ≥ 0` and raises the bound on the totals by at most the
size of the batch. -/
theorem updateHitCounts_inv (pg : Bool) (f : Faults) (ro : RangeOrder (String × gt))
    (site : Int) (hits : List Hit) (st : DB) (hi : CountersInv st) (B : Int)
    (hb : TotalsBelow B st) (hN : B + hits.length ≤ maxInt) :
    CountersInv (updateHitCounts pg f ro site hits st).2 ∧
      TotalsBelow (B + hits.length) (updateHitCounts pg f ro site hits st).2 := by
  have hlen0 : (0 : Int) ≤ (hits.length : Int) := Int.natCast_nonneg _
  have hgs : ∀ g, groupLoop f st.cache st.store [] hits = .ok g →
      ∀ v ∈ (ro.pick g).map Prod.snd,
        v.totalUnique ≤ v.total ∧ 0 ≤ v.totalUnique ∧ v.total ≤ B + hits.length := by
    intro g hg v hv
    have hp := groupLoop_shape f _ _ hits g hg
    obtain ⟨_, hmem, _⟩ := picked_groups ro g hits hp
    obtain ⟨_, b, c, d⟩ := groupLoop_bounded f st hi B hb hits hN g hg _ v (hmem v hv)
    exact ⟨c, d, b⟩
  have hcache : ∀ g, groupLoop f st.cache st.store [] hits = .ok g →
      ∀ k e, (writeLoop pg f site ((ro.pick g).map Prod.snd) st.cache st.store).1.Get k = some e →
        e.totalUnique ≤ e.total ∧ 0 ≤ e.totalUnique ∧ e.total ≤ B + hits.length := by
    intro g hg k e he
    rcases writeLoop_cache_entries pg f site _ _ _ k e he with h1 | ⟨v, hv, rfl⟩
    · have := hb.2.2 k e h1
      exact ⟨(hi.2 k e h1).1, (hi.2 k e h1).2, by omega⟩
    · exact hgs g hg v hv
  have hold : ∀ x ∈ st.store,
      x.totalUnique ≤ x.total ∧ 0 ≤ x.totalUnique ∧ x.total ≤ B + hits.length := by
    intro x hx
    have := hb.2.1 x hx
    exact ⟨(hi.1 x hx).1, (hi.1 x hx).2, by omega⟩
  have hold' : ∀ k e, st.cache.Get k = some e →
      e.totalUnique ≤ e.total ∧ 0 ≤ e.totalUnique ∧ e.total ≤ B + hits.length := by
    intro k e he
    have := hb.2.2 k e he
    exact ⟨(hi.2 k e he).1, (hi.2 k e he).2, by omega⟩
  have hfin : (∀ x ∈ (updateHitCounts pg f ro site hits st).2.store,
        x.totalUnique ≤ x.total ∧ 0 ≤ x.totalUnique ∧ x.total ≤ B + hits.length) ∧
      (∀ k e, (updateHitCounts pg f ro site hits st).2.cache.Get k = some e →
        e.totalUnique ≤ e.total ∧ 0 ≤ e.totalUnique ∧ e.total ≤ B + hits.length) := by
    cases hres : updateHitCounts pg f ro site hits st with
    | mk r st' =>
      cases r with
      | none =>
        obtain ⟨g, hg, hw⟩ := updateHitCounts_ok_inv pg f ro site hits st st' hres
        refine ⟨?_, ?_⟩
        · intro x hx
          rcases writeLoop_rows pg f site _ _ _ _ _ hw x hx with h1 | ⟨v, hv, hx1, hx2⟩
          · exact hold x h1
          · rw [hx1, hx2]
            exact hgs g hg v hv
        · intro k e he
          have hc : st'.cache = (writeLoop pg f site ((ro.pick g).map Prod.snd)
              st.cache st.store).1 := by rw [hw]
          exact hcache g hg k e (by rw [← hc]; exact he)
      | some err =>
        obtain ⟨hs, hc⟩ := updateHitCounts_err_inv pg f ro site hits st st' err hres
        refine ⟨?_, ?_⟩
        · intro x hx
          exact hold x (by rw [← hs]; exact hx)
        · intro k e he
          rcases hc with hc | ⟨g, hg, hc⟩
          · exact hold' k e (by rw [← hc]; exact he)
          · exact hcache g hg k e (by rw [← hc]; exact he)
  have hB := hb.1
  exact ⟨⟨fun x hx => ⟨(hfin.1 x hx).1, (hfin.1 x hx).2.1⟩,
      fun k e he => ⟨(hfin.2 k e he).1, (hfin.2 k e he).2.1⟩⟩,
    ⟨by omega, fun x hx => (hfin.1 x hx).2.2, fun k e he => (hfin.2 k e he).2.2⟩⟩

/-! ## Lemmas: `UpdateStats` -/

theorem runFuns_all_ok {σ : Type} (env : Env σ) (site : Site) (siteID : Int) (hits : List Hit) :
    ∀ (ds : List Dim) (r : Run σ),
      (∀ d ∈ ds, ∀ w, (env.dim d site hits w).1 = none) →
      (runFuns env site siteID hits ds r).1 = none ∧
      (runFuns env site siteID hits ds r).2.trace
        = r.trace ++ ds.map (fun d => Call.dim d site hits) := by
  intro ds
  induction ds with
  | nil => intro r _; simp [runFuns]
  | cons d rest ih =>
    intro r hall
    have hd : (callDim env d site hits r).1 = none := hall d (List.mem_cons_self _ _) r.world
    have hrest := ih (callDim env d site hits r).2
      (fun x hx w => hall x (List.mem_cons_of_mem _ hx) w)
    unfold runFuns
    cases hc : callDim env d site hits r with
    | mk e r' =>
      rw [hc] at hd hrest
      cases hd
      simp only
      refine ⟨hrest.1, ?_⟩
      rw [hrest.2]
      have : r'.trace = r.trace ++ [Call.dim d site hits] := by
        have := congrArg (fun p => p.2.trace) hc
        exact this.symm
      rw [this]
      simp

theorem runFuns_first_fail {σ : Type} (env : Env σ) (site : Site) (siteID : Int)
    (hits : List Hit) (d : Dim) (post : List Dim) (e : Error)
    (hd : ∀ w, (env.dim d site hits w).1 = some e) :
    ∀ (pre : List Dim) (r : Run σ),
      (∀ x ∈ pre, ∀ w, (env.dim x site hits w).1 = none) →
      (runFuns env site siteID hits (pre ++ d :: post) r).1
        = some (Error.wrap ("site " ++ FormatInt siteID) e) ∧
      (runFuns env site siteID hits (pre ++ d :: post) r).2.trace
        = r.trace ++ (pre ++ [d]).map (fun x => Call.dim x site hits) := by
  intro pre
  induction pre with
  | nil =>
    intro r _
    have h1 : (callDim env d site hits r).1 = some e := hd r.world
    simp only [List.nil_append, runFuns]
    cases hc : callDim env d site hits r with
    | mk e' r' =>
      rw [hc] at h1
      cases h1
      have : r'.trace = r.trace ++ [Call.dim d site hits] := by
        have := congrArg (fun p => p.2.trace) hc
        exact this.symm
      simp [this]
  | cons x rest ih =>
    intro r hall
    have hx : (callDim env x site hits r).1 = none := hall x (List.mem_cons_self _ _) r.world
    have hrest := ih (callDim env x site hits r).2
      (fun y hy w => hall y (List.mem_cons_of_mem _ hy) w)
    rw [List.cons_append]
    unfold runFuns
    cases hc : callDim env x site hits r with
    | mk e' r' =>
      rw [hc] at hx hrest
      cases hx
      dsimp only at hrest ⊢
      refine ⟨hrest.1, ?_⟩
      rw [hrest.2]
      have : r'.trace = r.trace ++ [Call.dim x site hits] := by
        have := congrArg (fun p => p.2.trace) hc
        exact this.symm
      rw [this]
      simp

/-- The body of `UpdateStats` once the site is resolved. -/
theorem UpdateStats_resolved {σ : Type} (env : Env σ) (site : Option Site) (s : Site)
    (siteID : Int) (hits : List Hit) (r : Run σ)
    (hres : site = some s ∨ (site = none ∧ env.ByID siteID r.world = .ok s)) :
    UpdateStats env site siteID hits r =
      match runFuns env s siteID hits funs ⟨r.world, r.trace ++ [Call.UpdateStats siteID hits]⟩ with
      | (some err, r') => (some err, r')
      | (none, r') =>
        if !s.ReceivedData then
          match env.setReceivedData siteID r'.world with
          | (some err, w) =>
            (some (Error.wrap ("update received_data: site " ++ FormatInt siteID) err),
              ⟨w, r'.trace ++ [Call.receivedData siteID]⟩)
          | (none, w) => (none, ⟨w, r'.trace ++ [Call.receivedData siteID]⟩)
        else (none, r') := by
  rcases hres with rfl | ⟨rfl, hby⟩
  · rfl
  · unfold UpdateStats
    simp only [hby]

theorem Extends.refl {σ : Type} (P : Call → Prop) (r : Run σ) : Extends P r r :=
  ⟨[], by simp, by simp⟩

theorem Extends.trans {σ : Type} {P : Call → Prop} {r1 r2 r3 : Run σ}
    (h1 : Extends P r1 r2) (h2 : Extends P r2 r3) : Extends P r1 r3 := by
  obtain ⟨a, ha, hpa⟩ := h1
  obtain ⟨b, hb, hpb⟩ := h2
  refine ⟨a ++ b, by rw [hb, ha, List.append_assoc], ?_⟩
  intro c hc
  rcases List.mem_append.1 hc with hc | hc
  · exact hpa c hc
  · exact hpb c hc

theorem Extends.single {σ : Type} {P : Call → Prop} (r : Run σ) (w : σ) (c : Call) (hc : P c) :
    Extends P r ⟨w, r.trace ++ [c]⟩ :=
  ⟨[c], rfl, by simpa using hc⟩

theorem callDim_extends {σ : Type} (env : Env σ) (P : Call → Prop) (d : Dim) (site : Site)
    (hits : List Hit) (r : Run σ) (hp : P (Call.dim d site hits)) :
    Extends P r (callDim env d site hits r).2 :=
  Extends.single r _ _ hp

theorem runFuns_extends {σ : Type} (env : Env σ) (P : Call → Prop) (site : Site) (siteID : Int)
    (hits : List Hit) (hp : ∀ d, P (Call.dim d site hits)) :
    ∀ (ds : List Dim) (r : Run σ), Extends P r (runFuns env site siteID hits ds r).2 := by
  intro ds
  induction ds with
  | nil => intro r; exact Extends.refl P r
  | cons d rest ih =>
    intro r
    have h1 := callDim_extends env P d site hits r (hp d)
    have h2 := ih (callDim env d site hits r).2
    unfold runFuns
    cases hc : callDim env d site hits r with
    | mk e r' =>
      rw [hc] at h1 h2
      cases e with
      | some err => exact h1
      | none => exact Extends.trans h1 h2

theorem UpdateStats_extends {σ : Type} (env : Env σ) (P : Call → Prop) (site : Option Site)
    (siteID : Int) (hits : List Hit) (r : Run σ)
    (h1 : P (Call.UpdateStats siteID hits)) (h2 : ∀ d s, P (Call.dim d s hits))
    (h3 : P (Call.receivedData siteID)) :
    Extends P r (UpdateStats env site siteID hits r).2 := by
  have hentry : Extends P r ⟨r.world, r.trace ++ [Call.UpdateStats siteID hits]⟩ :=
    Extends.single r _ _ h1
  unfold UpdateStats
  simp only
  cases hres : (match site with
      | some s => (Except.ok s : Except Error Site)
      | none => env.ByID siteID r.world) with
  | error err => exact hentry
  | ok s =>
    simp only
    have hf := runFuns_extends env P s siteID hits (h2 · s) funs
      ⟨r.world, r.trace ++ [Call.UpdateStats siteID hits]⟩
    cases hrun : runFuns env s siteID hits funs
        ⟨r.world, r.trace ++ [Call.UpdateStats siteID hits]⟩ with
    | mk e r' =>
      rw [hrun] at hf
      cases e with
      | some err => exact Extends.trans hentry hf
      | none =>
        simp only
        cases s.ReceivedData with
        | true => exact Extends.trans hentry hf
        | false =>
          simp only [Bool.not_false, if_true]
          cases hu : env.setReceivedData siteID r'.world with
          | mk e' w =>
            cases e' <;>
              exact Extends.trans hentry (Extends.trans hf (Extends.single r' _ _ h3))

/-! ## Lemmas: grouping by site -/

theorem SiteGroups.find?_add (g : SiteGroups) (id id' : Int) (h : Hit) :
    (g.add id h).find? id' =
      if id = id' then some ((g.find? id).getD [] ++ [h]) else g.find? id' := by
  induction g with
  | nil => simp [SiteGroups.add, SiteGroups.find?]
  | cons p rest ih =>
    obtain ⟨a, hs⟩ := p
    by_cases ha : a = id
    · subst ha
      by_cases ha' : a = id' <;> simp [SiteGroups.add, SiteGroups.find?, ha']
    · by_cases ha' : a = id'
      · subst ha'
        simp [SiteGroups.add, SiteGroups.find?, ha, Ne.symm ha]
      · simp [SiteGroups.add, SiteGroups.find?, ha, ha', ih]

theorem SiteGroups.keys_add (g : SiteGroups) (id : Int) (h : Hit) :
    ∀ a, a ∈ (g.add id h).map Prod.fst ↔ a = id ∨ a ∈ g.map Prod.fst := by
  induction g with
  | nil => intro a; simp [SiteGroups.add]
  | cons p rest ih =>
    obtain ⟨b, w⟩ := p
    intro a
    by_cases hb : b = id
    · subst hb; simp [SiteGroups.add]
    · simp only [SiteGroups.add, hb, if_false, List.map_cons, List.mem_cons, ih a]
      tauto

theorem SiteGroups.nodup_add (g : SiteGroups) (id : Int) (h : Hit)
    (hn : (g.map Prod.fst).Nodup) : ((g.add id h).map Prod.fst).Nodup := by
  induction g with
  | nil => simp [SiteGroups.add]
  | cons p rest ih =>
    obtain ⟨b, w⟩ := p
    simp only [List.map_cons, List.nodup_cons] at hn
    by_cases hb : b = id
    · subst hb
      simpa [SiteGroups.add] using hn
    · simp only [SiteGroups.add, hb, if_false, List.map_cons, List.nodup_cons]
      refine ⟨?_, ih hn.2⟩
      rw [SiteGroups.keys_add]
      rintro (h1 | h1)
      · exact hb h1
      · exact hn.1 h1

theorem SiteGroups.find?_of_mem_site (g : SiteGroups) (hn : (g.map Prod.fst).Nodup) (id : Int)
    (hs : List Hit) (hm : (id, hs) ∈ g) : g.find? id = some hs := by
  induction g with
  | nil => simp at hm
  | cons p rest ih =>
    obtain ⟨b, w⟩ := p
    simp only [List.map_cons, List.nodup_cons] at hn
    rcases List.mem_cons.1 hm with heq | hm
    · cases heq; simp [SiteGroups.find?]
    · have hb : b ≠ id := by
        rintro rfl
        exact hn.1 (List.mem_map.2 ⟨(b, hs), hm, rfl⟩)
      simp [SiteGroups.find?, hb, ih hn.2 hm]

theorem SiteGroups.find?_isSome (g : SiteGroups) (id : Int) :
    (g.find? id).isSome ↔ id ∈ g.map Prod.fst := by
  induction g with
  | nil => simp [SiteGroups.find?]
  | cons p rest ih =>
    obtain ⟨b, w⟩ := p
    by_cases hb : b = id
    · subst hb; simp [SiteGroups.find?]
    · simp [SiteGroups.find?, hb, ih, Ne.symm hb]

/-- The map built by appending every hit to the entry of its site. -/
theorem groupBySite_fold (l : List Hit) : ∀ (g : SiteGroups), (g.map Prod.fst).Nodup →
    ((l.foldl (fun g h => g.add h.Site h) g).map Prod.fst).Nodup ∧
    ∀ id, (l.foldl (fun g h => g.add h.Site h) g).find? id =
      if siteHits l id = [] then g.find? id
      else some ((g.find? id).getD [] ++ siteHits l id) := by
  induction l with
  | nil => intro g hn; exact ⟨hn, fun id => by simp [siteHits]⟩
  | cons h rest ih =>
    intro g hn
    obtain ⟨i1, i2⟩ := ih (g.add h.Site h) (SiteGroups.nodup_add g _ h hn)
    refine ⟨i1, ?_⟩
    intro id
    rw [List.foldl_cons, i2 id, SiteGroups.find?_add]
    by_cases hs : h.Site = id
    · subst hs
      have : siteHits (h :: rest) h.Site = h :: siteHits rest h.Site := by
        simp [siteHits, List.filter]
      rw [this]
      by_cases hr : siteHits rest h.Site = []
      · simp [hr]
      · simp [hr]
    · have : siteHits (h :: rest) id = siteHits rest id := by
        simp [siteHits, List.filter, hs]
      rw [this, if_neg hs]

/-- The map `grouped` of `ReindexStats`: one entry per site that has a hit,
holding exactly the hits of that site in their order. -/
theorem groupBySite_spec (hits : List Hit) :
    ((groupBySite hits).map Prod.fst).Nodup ∧
    (∀ p ∈ groupBySite hits, p.2 = siteHits hits p.1 ∧ siteHits hits p.1 ≠ []) ∧
    (∀ id, id ∈ (groupBySite hits).map Prod.fst ↔ ∃ h ∈ hits, h.Site = id) := by
  obtain ⟨h1, h2⟩ := groupBySite_fold hits [] (by simp)
  change ((groupBySite hits).map Prod.fst).Nodup at h1
  have hfind : ∀ id, (groupBySite hits).find? id =
      if siteHits hits id = [] then none else some (siteHits hits id) := by
    intro id
    unfold groupBySite
    rw [h2 id]
    simp [SiteGroups.find?]
  refine ⟨h1, ?_, ?_⟩
  · intro p hp
    have := SiteGroups.find?_of_mem_site (groupBySite hits) h1 p.1 p.2 hp
    rw [hfind] at this
    split_ifs at this with he
    exact ⟨(Option.some.inj this).symm, he⟩
  · intro id
    rw [← SiteGroups.find?_isSome, hfind]
    by_cases he : siteHits hits id = []
    · simp only [he, if_true, Option.isSome_none, Bool.false_eq_true, false_iff]
      rintro ⟨h, hm, hs⟩
      have : h ∈ siteHits hits id := by
        simp [siteHits, hm, hs]
      rw [he] at this
      simp at this
    · simp only [he, if_false, Option.isSome_some, true_iff]
      obtain ⟨h, hm⟩ := List.exists_mem_of_ne_nil _ he
      have := List.mem_filter.1 hm
      exact ⟨h, this.1, by simpa using this.2⟩

theorem groupNonBots_eq (hits : List Hit) :
    groupNonBots hits = groupBySite (hits.filter (fun h => decide (¬ h.Bot > 0))) := by
  have key : ∀ (l : List Hit) (g : SiteGroups),
      l.foldl (fun g h => if h.Bot > 0 then g else g.add h.Site h) g =
        (l.filter (fun h => decide (¬ h.Bot > 0))).foldl (fun g h => g.add h.Site h) g := by
    intro l
    induction l with
    | nil => intro g; rfl
    | cons h rest ih =>
      intro g
      by_cases hb : h.Bot > 0
      · simp [List.filter, hb, ih]
      · simp [List.filter, hb, ih]
  exact key hits []

/-! ## Lemmas: `PersistAndStat` -/

theorem persistLoop_extends {σ : Type} (env : Env σ) (P : Call → Prop) :
    ∀ (groups : List (Int × List Hit)) (r : Run σ),
      (∀ p ∈ groups, ∀ c : Call, c.batch = p.2 ∨ c.batch = [] → P c) →
      Extends P r (persistLoop env groups r) := by
  intro groups
  induction groups with
  | nil => intro r _; exact Extends.refl P r
  | cons p rest ih =>
    intro r hp
    obtain ⟨siteID, hits⟩ := p
    have hhead := hp (siteID, hits) (List.mem_cons_self _ _)
    have hu := UpdateStats_extends env P none siteID hits r
      (hhead _ (Or.inl rfl)) (fun d s => hhead _ (Or.inl rfl)) (hhead _ (Or.inr rfl))
    have hrest : ∀ r1, Extends P r1 (persistLoop env rest r1) :=
      fun r1 => ih r1 (fun q hq => hp q (List.mem_cons_of_mem _ hq))
    unfold persistLoop
    cases hc : UpdateStats env none siteID hits r with
    | mk e r' =>
      rw [hc] at hu
      cases e with
      | none => exact Extends.trans hu (hrest r')
      | some err =>
        exact Extends.trans hu (Extends.trans
          (Extends.single r' r'.world _ (hhead (Call.logError siteID hits err) (Or.inl rfl)))
          (hrest _))

/-- Every batch `PersistAndStat` passes on consists of hits that passed the
guard `h.Bot > 0`. -/
theorem PersistAndStat_batches {σ : Type} (env : Env σ) (ro : RangeOrder (Int × List Hit))
    (r : Run σ) :
    Extends (fun c => ∀ x ∈ c.batch, ¬ x.Bot > 0) r (PersistAndStat env ro r).2 := by
  unfold PersistAndStat
  cases hp : env.Persist r.world with
  | mk res w =>
    cases res with
    | error e => exact Extends.refl _ _
    | ok hits =>
      simp only
      have hgroups : ∀ p ∈ ro.pick (groupNonBots hits), ∀ c : Call,
          c.batch = p.2 ∨ c.batch = [] → ∀ x ∈ c.batch, ¬ x.Bot > 0 := by
        intro p hpm c hc x hx
        rcases hc with hc | hc
        · have hpg : p ∈ groupNonBots hits := (ro.perm _).mem_iff.1 hpm
          rw [groupNonBots_eq] at hpg
          have := ((groupBySite_spec _).2.1 p hpg).1
          rw [hc, this] at hx
          have h1 := (List.mem_filter.1 hx).1
          have h2 := (List.mem_filter.1 h1).2
          simpa using h2
        · rw [hc] at hx
          simp at hx
      have h1 := persistLoop_extends env _ (ro.pick (groupNonBots hits)) ⟨w, r.trace⟩ hgroups
      have h0 : Extends (fun c => ∀ x ∈ c.batch, ¬ x.Bot > 0) r (⟨w, r.trace⟩ : Run σ) :=
        ⟨[], by simp, by simp⟩
      exact Extends.trans h0 (Extends.trans h1
        (Extends.single _ _ Call.lastMemstoreSet (by simp [Call.batch])))

/-! ## Lemmas: `ReindexStats` -/

theorem runPlan_append_some (p q : List (Call × Option Error)) (e : Error) :
    (runPlan p).1 = some e → runPlan (p ++ q) = runPlan p := by
  induction p with
  | nil => intro h; simp [runPlan] at h
  | cons x rest ih =>
    obtain ⟨c, o⟩ := x
    intro h
    cases o with
    | some e' => simp [runPlan]
    | none =>
      have h' : (runPlan rest).1 = some e := h
      show ((runPlan (rest ++ q)).1, c :: (runPlan (rest ++ q)).2)
        = ((runPlan rest).1, c :: (runPlan rest).2)
      rw [ih h']

theorem runPlan_append_none (p q : List (Call × Option Error)) :
    (runPlan p).1 = none →
      runPlan (p ++ q) = ((runPlan q).1, (runPlan p).2 ++ (runPlan q).2) := by
  induction p with
  | nil => intro _; simp [runPlan]
  | cons x rest ih =>
    obtain ⟨c, o⟩ := x
    intro h
    cases o with
    | some e' => simp [runPlan] at h
    | none =>
      have h' : (runPlan rest).1 = none := h
      show ((runPlan (rest ++ q)).1, c :: (runPlan (rest ++ q)).2)
        = ((runPlan q).1, c :: (runPlan rest).2 ++ (runPlan q).2)
      rw [ih h']
      rfl

theorem runPlan_all_none (p : List (Call × Option Error)) (h : ∀ q ∈ p, q.2 = none) :
    runPlan p = (none, p.map Prod.fst) := by
  induction p with
  | nil => rfl
  | cons x rest ih =>
    obtain ⟨c, o⟩ := x
    have ho : o = none := h (c, o) (List.mem_cons_self _ _)
    subst ho
    simp only [runPlan, ih (fun q hq => h q (List.mem_cons_of_mem _ hq)), List.map_cons]

theorem runPlan_first_failure (c : Call) (e : Error) (post : List (Call × Option Error)) :
    ∀ (pre : List (Call × Option Error)), (∀ q ∈ pre, q.2 = none) →
      runPlan (pre ++ (c, some e) :: post) = (some e, pre.map Prod.fst ++ [c]) := by
  intro pre
  induction pre with
  | nil => intro _; rfl
  | cons x rest ih =>
    obtain ⟨c', o⟩ := x
    intro h
    have ho : o = none := h (c', o) (List.mem_cons_self _ _)
    subst ho
    show ((runPlan (rest ++ (c, some e) :: post)).1,
        c' :: (runPlan (rest ++ (c, some e) :: post)).2)
      = (some e, (c' :: rest.map Prod.fst) ++ [c])
    rw [ih (fun q hq => h q (List.mem_cons_of_mem _ hq))]
    rfl

theorem Realises.nil {σ : Type} : Realises (fun r : Run σ => (none, r)) [] := by
  intro r
  simp [runPlan]

theorem Realises.seq {σ : Type} {F G : Run σ → Option Error × Run σ}
    {P Q : List (Call × Option Error)} (hF : Realises F P) (hG : Realises G Q) :
    Realises (fun r =>
      match F r with
      | (some e, r') => (some e, r')
      | (none, r') => G r') (P ++ Q) := by
  intro r
  obtain ⟨a, b⟩ := hF r
  cases hfr : F r with
  | mk o r' =>
    rw [hfr] at a b
    simp only at a b
    cases o with
    | some e =>
      simp only [hfr]
      rw [runPlan_append_some P Q e a.symm]
      exact ⟨a, b⟩
    | none =>
      simp only [hfr]
      obtain ⟨c, d⟩ := hG r'
      rw [runPlan_append_none P Q a.symm]
      refine ⟨c, ?_⟩
      rw [d, b, List.append_assoc]

theorem Realises.callDim {σ : Type} (env : Env σ) (outcome : Dim → Site → List Hit → Option Error)
    (hout : ∀ d s hs w, (env.dim d s hs w).1 = outcome d s hs) (d : Dim) (s : Site)
    (hits : List Hit) :
    Realises (callDim env d s hits) [(Call.dim d s hits, outcome d s hits)] := by
  intro r
  have h1 : (GoatCounter.callDim env d s hits r).1 = outcome d s hits := hout d s hits r.world
  have h2 : (GoatCounter.callDim env d s hits r).2.trace = r.trace ++ [Call.dim d s hits] := rfl
  rw [h1, h2]
  cases outcome d s hits <;> simp [runPlan]

theorem Realises.runFuns {σ : Type} (env : Env σ)
    (outcome : Dim → Site → List Hit → Option Error)
    (hout : ∀ d s hs w, (env.dim d s hs w).1 = outcome d s hs) (s : Site) (siteID : Int)
    (hits : List Hit) : ∀ (ds : List Dim),
      Realises (runFuns env s siteID hits ds)
        (ds.map (fun d => (Call.dim d s hits,
          (outcome d s hits).map (Error.wrap ("site " ++ FormatInt siteID))))) := by
  intro ds
  induction ds with
  | nil => intro r; simp [GoatCounter.runFuns, runPlan]
  | cons d rest ih =>
    intro r
    have h1 : (GoatCounter.callDim env d s hits r).1 = outcome d s hits := hout d s hits r.world
    have h2 : (GoatCounter.callDim env d s hits r).2.trace = r.trace ++ [Call.dim d s hits] := rfl
    unfold GoatCounter.runFuns
    cases hc : GoatCounter.callDim env d s hits r with
    | mk o r' =>
      rw [hc] at h1 h2
      simp only at h1 h2
      rw [List.map_cons, ← h1]
      cases o with
      | some e => simp [runPlan, h2]
      | none =>
        obtain ⟨a, b⟩ := ih r'
        simp only [Option.map_none', runPlan]
        refine ⟨a, ?_⟩
        rw [b, h2]
        simp

theorem Realises.UpdateStats {σ : Type} (env : Env σ)
    (outcome : Dim → Site → List Hit → Option Error) (upd : Int → Option Error)
    (hout : ∀ d s hs w, (env.dim d s hs w).1 = outcome d s hs)
    (hupd : ∀ id w, (env.setReceivedData id w).1 = upd id) (s : Site) (siteID : Int)
    (hits : List Hit) :
    Realises (UpdateStats env (some s) siteID hits) (updateStatsPlan outcome upd s siteID hits) := by
  intro r
  rw [UpdateStats_resolved env (some s) s siteID hits r (Or.inl rfl)]
  obtain ⟨a, b⟩ := Realises.runFuns env outcome hout s siteID hits funs
    ⟨r.world, r.trace ++ [Call.UpdateStats siteID hits]⟩
  unfold updateStatsPlan
  rw [List.cons_append]
  simp only [runPlan]
  cases hrun : GoatCounter.runFuns env s siteID hits funs
      ⟨r.world, r.trace ++ [Call.UpdateStats siteID hits]⟩ with
  | mk o r' =>
    rw [hrun] at a b
    simp only at a b
    cases o with
    | some e =>
      simp only
      rw [runPlan_append_some _ _ e a.symm]
      exact ⟨a, by rw [b]; simp⟩
    | none =>
      simp only
      rw [runPlan_append_none _ _ a.symm]
      cases hrd : s.ReceivedData with
      | true => simp [runPlan, b]
      | false =>
        have hu := hupd siteID r'.world
        cases hset : env.setReceivedData siteID r'.world with
        | mk o' w =>
          rw [hset] at hu
          simp only at hu
          rw [← hu]
          cases o' <;> simp [runPlan, b]

theorem Realises.reindexTable {σ : Type} (env : Env σ)
    (outcome : Dim → Site → List Hit → Option Error) (upd : Int → Option Error)
    (hout : ∀ d s hs w, (env.dim d s hs w).1 = outcome d s hs)
    (hupd : ∀ id w, (env.setReceivedData id w).1 = upd id) (s : Site) (siteID : Int)
    (hits : List Hit) (t : String) :
    Realises (reindexTable env s siteID hits t none) (tablePlan outcome upd s siteID hits t) := by
  unfold GoatCounter.reindexTable tablePlan dimOfTable
  by_cases h0 : t = "all"
  · simp only [if_pos h0]
    exact Realises.UpdateStats env outcome upd hout hupd s siteID hits
  · simp only [if_neg h0]
    split_ifs <;> first
      | exact Realises.callDim env outcome hout _ s hits
      | exact Realises.nil

theorem Realises.tablesLoop {σ : Type} (env : Env σ)
    (outcome : Dim → Site → List Hit → Option Error) (upd : Int → Option Error)
    (hout : ∀ d s hs w, (env.dim d s hs w).1 = outcome d s hs)
    (hupd : ∀ id w, (env.setReceivedData id w).1 = upd id) (s : Site) (siteID : Int)
    (hits : List Hit) : ∀ (tables : List String),
      Realises (tablesLoop env s siteID hits tables none)
        (tables.flatMap (tablePlan outcome upd s siteID hits)) := by
  intro tables
  induction tables with
  | nil => exact Realises.nil
  | cons t rest ih =>
    have := Realises.seq (Realises.reindexTable env outcome upd hout hupd s siteID hits t) ih
    intro r
    have hr := this r
    rw [List.flatMap_cons]
    unfold GoatCounter.tablesLoop
    exact hr

theorem Realises.sitesLoop {σ : Type} (env : Env σ)
    (outcome : Dim → Site → List Hit → Option Error) (upd : Int → Option Error)
    (hout : ∀ d s hs w, (env.dim d s hs w).1 = outcome d s hs)
    (hupd : ∀ id w, (env.setReceivedData id w).1 = upd id) (allSites : Int → Option Site)
    (tables : List String) : ∀ (groups : List (Int × List Hit)),
      (∀ p ∈ groups, (allSites p.1).isSome) →
      Realises (sitesLoop env allSites tables groups)
        (groups.flatMap (fun p => sitePlan outcome upd allSites tables p.1 p.2)) := by
  intro groups
  induction groups with
  | nil => intro _; exact Realises.nil
  | cons p rest ih =>
    intro hall
    obtain ⟨siteID, hits⟩ := p
    have hsome := hall (siteID, hits) (List.mem_cons_self _ _)
    have hrest := ih (fun q hq => hall q (List.mem_cons_of_mem _ hq))
    cases hs : allSites siteID with
    | none => simp [hs] at hsome
    | some site =>
      by_cases hact : site.State = StateActive
      · have hsp : sitePlan outcome upd allSites tables siteID hits
            = tables.flatMap (tablePlan outcome upd site siteID hits) := by
          unfold sitePlan
          rw [hs]
          simp only [hact, if_true]
        have hsl : ∀ r, GoatCounter.sitesLoop env allSites tables ((siteID, hits) :: rest) r
            = (match GoatCounter.tablesLoop env site siteID hits tables none r with
              | (some e, r') => (some e, r')
              | (none, r') => GoatCounter.sitesLoop env allSites tables rest r') := by
          intro r
          rw [GoatCounter.sitesLoop]
          simp only [hs]
          rw [if_neg (not_not.2 hact)]
        have := Realises.seq
          (Realises.tablesLoop env outcome upd hout hupd site siteID hits tables) hrest
        intro r
        have hr := this r
        rw [List.flatMap_cons, hsp, hsl]
        exact hr
      · have hsp : sitePlan outcome upd allSites tables siteID hits = [] := by
          unfold sitePlan
          rw [hs]
          simp only [hact, if_false]
        have hsl : ∀ r, GoatCounter.sitesLoop env allSites tables ((siteID, hits) :: rest) r
            = GoatCounter.sitesLoop env allSites tables rest r := by
          intro r
          rw [GoatCounter.sitesLoop]
          simp only [hs]
          rw [if_pos hact]
        intro r
        rw [List.flatMap_cons, hsp, hsl, List.nil_append]
        exact hrest r

theorem flatMap_site_groups {β : Type} (hits : List Hit) (F : Int → List Hit → List β) :
    ∀ (l : List (Int × List Hit)), (∀ p ∈ l, p.2 = siteHits hits p.1) →
      l.flatMap (fun p => F p.1 p.2)
        = (l.map Prod.fst).flatMap (fun id => F id (siteHits hits id)) := by
  intro l
  induction l with
  | nil => intro _; rfl
  | cons p rest ih =>
    intro h
    simp only [List.flatMap_cons, List.map_cons]
    rw [ih (fun q hq => h q (List.mem_cons_of_mem _ hq)), h p (List.mem_cons_self _ _)]

theorem tablePlan_calls (outcome : Dim → Site → List Hit → Option Error)
    (upd : Int → Option Error) (s : Site) (siteID : Int) (hits : List Hit) (t : String) :
    (tablePlan outcome upd s siteID hits t).map Prod.fst = tableCalls s siteID hits t := by
  unfold tablePlan tableCalls
  by_cases h0 : t = "all"
  · simp only [if_pos h0, updateStatsPlan, updateStatsCalls]
    cases s.ReceivedData <;> simp [List.map_map, Function.comp_def]
  · simp only [if_neg h0]
    cases dimOfTable t <;> rfl

theorem map_fst_flatMap {α : Type} (F : α → List (Call × Option Error)) (G : α → List Call)
    (h : ∀ a, (F a).map Prod.fst = G a) :
    ∀ (l : List α), (l.flatMap F).map Prod.fst = l.flatMap G := by
  intro l
  induction l with
  | nil => rfl
  | cons a rest ih => simp only [List.flatMap_cons, List.map_append, h a, ih]

theorem sitePlan_calls (outcome : Dim → Site → List Hit → Option Error)
    (upd : Int → Option Error) (allSites : Int → Option Site) (tables : List String)
    (siteID : Int) (hits : List Hit) :
    (sitePlan outcome upd allSites tables siteID hits).map Prod.fst
      = siteCalls allSites tables siteID hits := by
  unfold sitePlan siteCalls
  cases allSites siteID with
  | none => rfl
  | some site =>
    simp only
    split_ifs
    · exact map_fst_flatMap _ _ (tablePlan_calls outcome upd site siteID hits) tables
    · rfl

theorem sitesLoop_hit_counts {σ : Type} (env : Env σ) (allSites : Int → Option Site) :
    ∀ (groups : List (Int × List Hit)) (r : Run σ),
      Extends (fun c => ∃ s hs, c = Call.dim Dim.updateHitCounts s hs) r
        (sitesLoop env allSites ["hit_counts"] groups r).2 := by
  intro groups
  induction groups with
  | nil => intro r; exact Extends.refl _ _
  | cons p rest ih =>
    intro r
    obtain ⟨siteID, hits⟩ := p
    unfold sitesLoop
    cases hs : allSites siteID with
    | none => exact Extends.refl _ _
    | some site =>
      simp only
      by_cases hact : site.State = StateActive
      · rw [if_neg (not_not.2 hact)]
        have htab : tablesLoop env site siteID hits ["hit_counts"] none r =
            (match callDim env Dim.updateHitCounts site hits r with
              | (some e, r') => (some e, r')
              | (none, r') => (none, r')) := by
          simp [tablesLoop, reindexTable]
        rw [htab]
        have h1 := callDim_extends env (fun c => ∃ s hs, c = Call.dim Dim.updateHitCounts s hs)
          Dim.updateHitCounts site hits r ⟨site, hits, rfl⟩
        cases hc : callDim env Dim.updateHitCounts site hits r with
        | mk e r' =>
          rw [hc] at h1
          cases e with
          | some err => exact h1
          | none => exact Extends.trans h1 (ih r')
      · rw [if_pos hact]
        exact ih r

/-! ## Lemmas: auxiliary facts for the properties -/

theorem CacheMirrors_empty_cache (site : Int) (s : Store) : CacheMirrors site ⟨s, []⟩ := by
  intro t p e h
  simp [Cache.Get] at h

theorem groupLoop_skip_mid (f : Faults) (c : Cache) (s : Store) (h : Hit) (post : List Hit)
    (hb : h.Bot > 0) : ∀ (pre : List Hit) (g : Grouped),
      groupLoop f c s g (pre ++ h :: post) = groupLoop f c s g (pre ++ post) := by
  intro pre
  induction pre with
  | nil =>
    intro g
    rw [List.nil_append, List.nil_append]
    conv_lhs => unfold groupLoop
    rw [groupStep_skip f c s g h hb]
  | cons x rest ih =>
    intro g
    rw [List.cons_append, List.cons_append]
    unfold groupLoop
    cases groupStep f c s g x with
    | error e => rfl
    | ok g1 => exact ih g1

theorem firstFailure_some (outcome : Dim → Option Error) :
    ∀ (ds pre : List Dim) (d : Dim) (e : Error), firstFailure outcome ds = some (pre, d, e) →
      ∃ post, ds = pre ++ d :: post ∧ (∀ x ∈ pre, outcome x = none) ∧ outcome d = some e := by
  intro ds
  induction ds with
  | nil => intro pre d e h; simp [firstFailure] at h
  | cons a rest ih =>
    intro pre d e h
    unfold firstFailure at h
    cases ha : outcome a with
    | some e' =>
      simp only [ha, Option.some.injEq, Prod.mk.injEq] at h
      obtain ⟨rfl, rfl, rfl⟩ := h
      exact ⟨rest, rfl, by simp, ha⟩
    | none =>
      simp only [ha] at h
      cases hr : firstFailure outcome rest with
      | none => simp [hr] at h
      | some q =>
        obtain ⟨pre', d', e'⟩ := q
        simp only [hr, Option.map_some', Option.some.injEq, Prod.mk.injEq] at h
        obtain ⟨rfl, rfl, rfl⟩ := h
        obtain ⟨post, h1, h2, h3⟩ := ih pre' d' e' hr
        refine ⟨post, by rw [h1]; rfl, ?_, h3⟩
        intro x hx
        rcases List.mem_cons.1 hx with rfl | hx
        · exact ha
        · exact h2 x hx

theorem firstFailure_none (outcome : Dim → Option Error) :
    ∀ (ds : List Dim), firstFailure outcome ds = none → ∀ d ∈ ds, outcome d = none := by
  intro ds
  induction ds with
  | nil => intro _ d hd; simp at hd
  | cons a rest ih =>
    intro h d hd
    unfold firstFailure at h
    cases ha : outcome a with
    | some e' => simp [ha] at h
    | none =>
      simp only [ha, Option.map_eq_none'] at h
      rcases List.mem_cons.1 hd with rfl | hd
      · exact ha
      · exact ih h d hd

/-! ## Properties of `updateHitCounts` -/

/-- C1, as amended.  On a state whose cache mirrors the table and whose stored
totals are non-negative, for a batch whose hits all belong to the context
site and that cannot overflow a counter (the size of the batch, and every
stored counter plus that size, fit a Go `int`), a successful `updateHitCounts`
leaves for every bucket (formatted hour, path): stored total = prior total
(0 if no row) + number of hits of the batch with that hour and path that pass
the guard `h.Bot > 0` (bot score zero or negative), and stored total_unique =
prior total_unique + number of those hits with `FirstVisit` set. -/
theorem updateHitCounts_counts (PgSQL : Bool) (f : Faults) (ro : RangeOrder (String × gt))
    (siteID : Int) (hits : List Hit) (st st' : DB)
    (hsite : ∀ h ∈ hits, h.Site = siteID) (hm : CacheMirrors siteID st)
    (hn : TotalsNonneg st.store) (hroom : Headroom hits.length st.store)
    (hok : updateHitCounts PgSQL f ro siteID hits st = (none, st')) (t : Time) (p : String) :
    storedCounts st'.store siteID t.Format p =
      ((storedCounts st.store siteID t.Format p).1 + (bucketHits hits t.Format p).length,
       (storedCounts st.store siteID t.Format p).2
         + (uniqueHits (bucketHits hits t.Format p)).length) := by
  have hlen0 : (0 : Int) ≤ (hits.length : Int) := Int.natCast_nonneg _
  have hr : TotalsInRange st.store := by
    intro r hr
    have := (hroom.2 r hr).1
    omega
  have hz := noZeroCrossing_of_nonneg siteID hits.length st.store hn hr hroom.1
  rw [stored_counts_wrapped PgSQL f ro siteID hits st st' hsite hm hz hok t p]
  have hc1 : (bucketHits hits t.Format p).length ≤ hits.length := List.length_filter_le _ _
  have hc2 : (uniqueHits (bucketHits hits t.Format p)).length ≤ hits.length :=
    le_trans (List.length_filter_le _ _) hc1
  have hc1' : ((bucketHits hits t.Format p).length : Int) ≤ hits.length := by exact_mod_cast hc1
  have hc2' : ((uniqueHits (bucketHits hits t.Format p)).length : Int) ≤ hits.length := by
    exact_mod_cast hc2
  have hmin : minInt ≤ 0 := by unfold minInt; omega
  have h1 := hroom.1
  rcases storedCounts_cases st.store siteID t.Format p with h0 | ⟨r, hrm, h0⟩
  · rw [h0]
    simp only
    rw [wrapAdd_of_range 0 _ hmin (by omega), wrapAdd_of_range 0 _ hmin (by omega)]
  · rw [h0]
    simp only
    obtain ⟨a, b, c⟩ := hroom.2 r hrm
    have := hn r hrm
    rw [wrapAdd_of_range r.total _ (by omega) (by omega),
      wrapAdd_of_range r.totalUnique _ b (by omega)]

/-- C1, witness: hits at 10:03, 10:47 and 11:02 for path `/x`, all first
visits, on the empty table give exactly the rows (10:00:00, /x, 2, 2) and
(11:00:00, /x, 1, 1). -/
theorem updateHitCounts_counts_witness :
    (∀ h ∈ scenarioHits, h.Site = 1) ∧ CacheMirrors 1 DB.empty ∧ TotalsNonneg DB.empty.store ∧
    Headroom scenarioHits.length DB.empty.store ∧
    updateHitCounts true Faults.none (RangeOrder.insertion _) 1 scenarioHits DB.empty
      = (none, scenarioResult) ∧
    scenarioResult.store =
      [⟨1, "/x", "", false, "2020-06-18 10:00:00", 2, 2⟩,
       ⟨1, "/x", "", false, "2020-06-18 11:00:00", 1, 1⟩] ∧
    storedCounts scenarioResult.store 1 (Time.Format ⟨2020, 6, 18, 10, 0, 0⟩) "/x" =
      ((storedCounts DB.empty.store 1 (Time.Format ⟨2020, 6, 18, 10, 0, 0⟩) "/x").1
         + (bucketHits scenarioHits (Time.Format ⟨2020, 6, 18, 10, 0, 0⟩) "/x").length,
       (storedCounts DB.empty.store 1 (Time.Format ⟨2020, 6, 18, 10, 0, 0⟩) "/x").2
         + (uniqueHits (bucketHits scenarioHits (Time.Format ⟨2020, 6, 18, 10, 0, 0⟩) "/x")).length) :=
  ⟨by decide, CacheMirrors_empty_cache 1 [], by intro r hr; simp [DB.empty] at hr,
    ⟨by decide, by intro r hr; simp [DB.empty] at hr⟩, by decide, rfl,
    updateHitCounts_counts true Faults.none (RangeOrder.insertion _) 1 scenarioHits DB.empty
      scenarioResult (by decide) (CacheMirrors_empty_cache 1 [])
      (by intro r hr; simp [DB.empty] at hr)
      ⟨by decide, by intro r hr; simp [DB.empty] at hr⟩ (by decide)
      ⟨2020, 6, 18, 10, 0, 0⟩ "/x"⟩

/-- C1, counterexample to the claim as stated, at two inputs.  A hit with bot
score -1 is aggregated, so the stored total of its bucket is 1 although the
batch has no hit with `Bot = 0`.  And on a row whose total is the largest Go
`int`, one hit with `Bot = 0` leaves the smallest Go `int`, not the prior
total plus one. -/
theorem counts_as_stated_counterexample :
    ((∀ h ∈ [botHit (-1)], h.Site = 1) ∧ CacheMirrors 1 DB.empty ∧
      TotalsNonneg DB.empty.store ∧
      (updateHitCounts true Faults.none (RangeOrder.insertion _) 1 [botHit (-1)] DB.empty).1
        = none ∧
      (botHit (-1)).CreatedAt.Format = "2020-06-18 10:00:00" ∧
      (storedCounts
        (updateHitCounts true Faults.none (RangeOrder.insertion _) 1 [botHit (-1)]
          DB.empty).2.store 1 "2020-06-18 10:00:00" "/x").1 = 1 ∧
      (storedCounts DB.empty.store 1 "2020-06-18 10:00:00" "/x").1
        + ((bucketHitsBotZero [botHit (-1)] "2020-06-18 10:00:00" "/x").length : Int) = 0) ∧
    ((∀ h ∈ [botHit 0], h.Site = 1) ∧ CacheMirrors 1 (oneRow maxInt 0) ∧
      TotalsNonneg (oneRow maxInt 0).store ∧
      (updateHitCounts true Faults.none (RangeOrder.insertion _) 1 [botHit 0]
        (oneRow maxInt 0)).1 = none ∧
      (storedCounts
        (updateHitCounts true Faults.none (RangeOrder.insertion _) 1 [botHit 0]
          (oneRow maxInt 0)).2.store 1 "2020-06-18 10:00:00" "/x").1 = minInt ∧
      (storedCounts (oneRow maxInt 0).store 1 "2020-06-18 10:00:00" "/x").1
        + ((bucketHitsBotZero [botHit 0] "2020-06-18 10:00:00" "/x").length : Int)
          = maxInt + 1 ∧
      minInt ≠ maxInt + 1) :=
  ⟨⟨by decide, CacheMirrors_empty_cache 1 [], by intro r hr; simp [DB.empty] at hr,
      by decide, by decide, by decide, by decide⟩,
    ⟨by decide, CacheMirrors_empty_cache 1 _, by unfold TotalsNonneg; decide, by decide,
      by decide, by decide, by decide⟩⟩

/-- C4, as amended.  For a batch `B1 ++ B2` of hits of the context site (a Go
slice, so of at most `maxInt` hits), on a state whose cache mirrors the table
and whose stored totals are counters (non-negative Go `int` values): if the
call on the whole batch and the two calls on `B1` and then `B2` all succeed,
they leave the same stored total and total_unique for every bucket.  No
assumption excludes overflow: both sides wrap alike. -/
theorem updateHitCounts_split (PgSQL : Bool) (f : Faults)
    (ro ro1 ro2 : RangeOrder (String × gt)) (siteID : Int) (B1 B2 : List Hit)
    (st stOnce st1 st2 : DB)
    (hsite : ∀ h ∈ B1 ++ B2, h.Site = siteID) (hm : CacheMirrors siteID st)
    (hn : TotalsNonneg st.store) (hr : TotalsInRange st.store)
    (hlen : ((B1 ++ B2).length : Int) ≤ maxInt)
    (honce : updateHitCounts PgSQL f ro siteID (B1 ++ B2) st = (none, stOnce))
    (hfirst : updateHitCounts PgSQL f ro1 siteID B1 st = (none, st1))
    (hsecond : updateHitCounts PgSQL f ro2 siteID B2 st1 = (none, st2))
    (t : Time) (p : String) :
    storedCounts stOnce.store siteID t.Format p = storedCounts st2.store siteID t.Format p := by
  have hs1 : ∀ h ∈ B1, h.Site = siteID := fun h hh => hsite h (List.mem_append_left _ hh)
  have hs2 : ∀ h ∈ B2, h.Site = siteID := fun h hh => hsite h (List.mem_append_right _ hh)
  have hl : ((B1.length : Int) + (B2.length : Int)) ≤ maxInt := by
    rw [List.length_append] at hlen
    exact_mod_cast hlen
  have hl1 : (0 : Int) ≤ (B1.length : Int) := Int.natCast_nonneg _
  have hl2 : (0 : Int) ≤ (B2.length : Int) := Int.natCast_nonneg _
  have hz := noZeroCrossing_of_nonneg siteID (B1 ++ B2).length st.store hn hr hlen
  have hz1 := noZeroCrossing_of_nonneg siteID B1.length st.store hn hr (by omega)
  have e1 := stored_counts_wrapped PgSQL f ro1 siteID B1 st st1 hs1 hm hz1 hfirst
  have hm1 := updateHitCounts_mirror PgSQL f ro1 siteID B1 st st1 hm hfirst
  have hz2 : NoZeroCrossing siteID B2.length st1.store := by
    intro t' p' k hk1 hk2
    rw [e1 t' p']
    simp only
    rw [wrapAdd_add]
    have hb : 0 ≤ (storedCounts st.store siteID t'.Format p').1 ∧
        (storedCounts st.store siteID t'.Format p').1 ≤ maxInt := by
      rcases storedCounts_cases st.store siteID t'.Format p' with h0 | ⟨r, hrm, h0⟩
      · rw [h0]; exact ⟨le_refl _, by unfold maxInt; omega⟩
      · rw [h0]; exact ⟨hn r hrm, hr r hrm⟩
    have hc : (bucketHits B1 t'.Format p').length ≤ B1.length := List.length_filter_le _ _
    apply wrapAdd_ne_zero _ _ hb.1 hb.2 (by omega)
    have : ((bucketHits B1 t'.Format p').length : Int) ≤ B1.length := by exact_mod_cast hc
    have : (k : Int) ≤ B2.length := by exact_mod_cast hk2
    push_cast
    omega
  have e0 := stored_counts_wrapped PgSQL f ro siteID _ st stOnce hsite hm hz honce t p
  have e2 := stored_counts_wrapped PgSQL f ro2 siteID _ st1 st2 hs2 hm1 hz2 hsecond t p
  rw [e0, e2, e1 t p]
  have hb : bucketHits (B1 ++ B2) t.Format p
      = bucketHits B1 t.Format p ++ bucketHits B2 t.Format p := by
    simp [bucketHits]
  have hu : uniqueHits (bucketHits B1 t.Format p ++ bucketHits B2 t.Format p)
      = uniqueHits (bucketHits B1 t.Format p) ++ uniqueHits (bucketHits B2 t.Format p) := by
    simp [uniqueHits]
  rw [hb, hu, List.length_append, List.length_append]
  simp only [wrapAdd_add]

/-- C4, witness: a table that already holds the row (10:00, /x, 1, 1); four
hits, split inside the bucket of 10:00; the whole batch is written in reverse
map order, so the two final tables list their rows in different orders and
agree on the counters: (3, 3) for 10:00. -/
theorem updateHitCounts_split_witness :
    (∀ h ∈ [mkHit "/x" "" 10 3] ++ [mkHit "/x" "" 10 47, mkHit "/x" "" 11 2,
      mkHit "/x" "" 11 30], h.Site = 1) ∧
    CacheMirrors 1 (oneRow 1 1) ∧ TotalsNonneg (oneRow 1 1).store ∧
    TotalsInRange (oneRow 1 1).store ∧
    ((([mkHit "/x" "" 10 3] ++ [mkHit "/x" "" 10 47, mkHit "/x" "" 11 2,
      mkHit "/x" "" 11 30]).length : Nat) : Int) ≤ maxInt ∧
    updateHitCounts false Faults.none (RangeOrder.reversed _) 1
      ([mkHit "/x" "" 10 3] ++ [mkHit "/x" "" 10 47, mkHit "/x" "" 11 2, mkHit "/x" "" 11 30])
      (oneRow 1 1)
      = (none, ⟨[⟨1, "/x", "", false, "2020-06-18 11:00:00", 2, 2⟩,
                 ⟨1, "/x", "", false, "2020-06-18 10:00:00", 3, 3⟩],
                [("12020-06-18 10:00:00/x", ⟨3, 3⟩), ("12020-06-18 11:00:00/x", ⟨2, 2⟩)]⟩) ∧
    updateHitCounts false Faults.none (RangeOrder.insertion _) 1 [mkHit "/x" "" 10 3]
      (oneRow 1 1)
      = (none, ⟨[⟨1, "/x", "", false, "2020-06-18 10:00:00", 2, 2⟩],
                [("12020-06-18 10:00:00/x", ⟨2, 2⟩)]⟩) ∧
    updateHitCounts false Faults.none (RangeOrder.insertion _) 1
      [mkHit "/x" "" 10 47, mkHit "/x" "" 11 2, mkHit "/x" "" 11 30]
      ⟨[⟨1, "/x", "", false, "2020-06-18 10:00:00", 2, 2⟩], [("12020-06-18 10:00:00/x", ⟨2, 2⟩)]⟩
      = (none, ⟨[⟨1, "/x", "", false, "2020-06-18 10:00:00", 3, 3⟩,
                 ⟨1, "/x", "", false, "2020-06-18 11:00:00", 2, 2⟩],
                [("12020-06-18 11:00:00/x", ⟨2, 2⟩), ("12020-06-18 10:00:00/x", ⟨3, 3⟩)]⟩) ∧
    storedCounts [⟨1, "/x", "", false, "2020-06-18 10:00:00", 3, 3⟩,
        ⟨1, "/x", "", false, "2020-06-18 11:00:00", 2, 2⟩] 1
        (Time.Format ⟨2020, 6, 18, 10, 0, 0⟩) "/x" = (3, 3) ∧
    storedCounts [⟨1, "/x", "", false, "2020-06-18 11:00:00", 2, 2⟩,
        ⟨1, "/x", "", false, "2020-06-18 10:00:00", 3, 3⟩] 1
        (Time.Format ⟨2020, 6, 18, 10, 0, 0⟩) "/x"
      = storedCounts [⟨1, "/x", "", false, "2020-06-18 10:00:00", 3, 3⟩,
        ⟨1, "/x", "", false, "2020-06-18 11:00:00", 2, 2⟩] 1
        (Time.Format ⟨2020, 6, 18, 10, 0, 0⟩) "/x" :=
  ⟨by decide, CacheMirrors_empty_cache 1 _, by unfold TotalsNonneg; decide,
    by unfold TotalsInRange; decide, by decide, by decide, by decide, by decide, by decide,
    updateHitCounts_split false Faults.none (RangeOrder.reversed _) (RangeOrder.insertion _)
      (RangeOrder.insertion _) 1 [mkHit "/x" "" 10 3]
      [mkHit "/x" "" 10 47, mkHit "/x" "" 11 2, mkHit "/x" "" 11 30] (oneRow 1 1)
      ⟨[⟨1, "/x", "", false, "2020-06-18 11:00:00", 2, 2⟩,
        ⟨1, "/x", "", false, "2020-06-18 10:00:00", 3, 3⟩],
       [("12020-06-18 10:00:00/x", ⟨3, 3⟩), ("12020-06-18 11:00:00/x", ⟨2, 2⟩)]⟩
      ⟨[⟨1, "/x", "", false, "2020-06-18 10:00:00", 2, 2⟩], [("12020-06-18 10:00:00/x", ⟨2, 2⟩)]⟩
      ⟨[⟨1, "/x", "", false, "2020-06-18 10:00:00", 3, 3⟩,
        ⟨1, "/x", "", false, "2020-06-18 11:00:00", 2, 2⟩],
       [("12020-06-18 11:00:00/x", ⟨2, 2⟩), ("12020-06-18 10:00:00/x", ⟨3, 3⟩)]⟩
      (by decide) (CacheMirrors_empty_cache 1 _) (by unfold TotalsNonneg; decide)
      (by unfold TotalsInRange; decide) (by decide)
      (by decide) (by decide) (by decide) ⟨2020, 6, 18, 10, 0, 0⟩ "/x"⟩

/-- C4, counterexample to the claim as stated, from the empty table and
cache: the upsert of the row of 11:00 fails.  The call on the whole batch
fails and is rolled back, leaving no row for 10:00; run in two halves, the
first call succeeds and leaves (1, 1) for 10:00, the second fails. -/
theorem split_failure_counterexample :
    (∀ h ∈ [mkHit "/x" "" 10 3] ++ [mkHit "/x" "" 11 2], h.Site = 1 ∧ h.Bot = 0) ∧
    CacheMirrors 1 DB.empty ∧
    (updateHitCounts true failEleven (RangeOrder.insertion _) 1
      ([mkHit "/x" "" 10 3] ++ [mkHit "/x" "" 11 2]) DB.empty).1
      = some (Error.wrap "updateHitCounts hit_counts" (Error.msg "db down")) ∧
    storedCounts (updateHitCounts true failEleven (RangeOrder.insertion _) 1
      ([mkHit "/x" "" 10 3] ++ [mkHit "/x" "" 11 2]) DB.empty).2.store
      1 "2020-06-18 10:00:00" "/x" = (0, 0) ∧
    (updateHitCounts true failEleven (RangeOrder.insertion _) 1 [mkHit "/x" "" 10 3]
      DB.empty).1 = none ∧
    (updateHitCounts true failEleven (RangeOrder.insertion _) 1 [mkHit "/x" "" 11 2]
      (updateHitCounts true failEleven (RangeOrder.insertion _) 1 [mkHit "/x" "" 10 3]
        DB.empty).2).1
      = some (Error.wrap "updateHitCounts hit_counts" (Error.msg "db down")) ∧
    storedCounts (updateHitCounts true failEleven (RangeOrder.insertion _) 1
      [mkHit "/x" "" 11 2]
      (updateHitCounts true failEleven (RangeOrder.insertion _) 1 [mkHit "/x" "" 10 3]
        DB.empty).2).2.store 1 "2020-06-18 10:00:00" "/x" = (1, 1) :=
  ⟨by decide, CacheMirrors_empty_cache 1 _, by decide, by decide, by decide, by decide,
    by decide⟩

/-- C5, as amended.  For a bucket that has no row before the call and that the
batch touches, after a successful `updateHitCounts` (either dialect) the
stored title is the title of the last hit of that bucket in the batch (among
those passing the guard `h.Bot > 0`) that carries a non-empty title, and the
empty string if no such hit carries one. -/
theorem updateHitCounts_title (PgSQL : Bool) (f : Faults) (ro : RangeOrder (String × gt))
    (siteID : Int) (hits : List Hit) (st st' : DB)
    (hok : updateHitCounts PgSQL f ro siteID hits st = (none, st')) (t : Time) (p : String)
    (hnew : st.store.find siteID t.Format p = none)
    (htouched : bucketHits hits t.Format p ≠ []) :
    storedTitle st'.store siteID t.Format p = some (lastTitle (bucketHits hits t.Format p)) := by
  obtain ⟨g, _, hp, hfind⟩ := updateHitCounts_find PgSQL f ro siteID hits st st' hok
  obtain ⟨h1, _⟩ := hfind t p
  rw [← keyHits_eq_bucketHits] at htouched ⊢
  cases hf : g.find? (t.Format ++ p) with
  | none => exact absurd (hp.2.2 _ hf) htouched
  | some v =>
    obtain ⟨a, b, hrow, _⟩ := h1 v hf
    have htitle := (hp.2.1 _ v hf).2.2.2
    unfold storedTitle
    rw [hrow]
    unfold writtenRow
    rw [a, b, hnew]
    cases PgSQL <;> simp [gt.row, htitle]

/-- C5, witness: H1 (no title), H2 (title `A`), H3 (no title) for one bucket
on the empty table give the stored title `A`, under both dialects. -/
theorem updateHitCounts_title_witness :
    updateHitCounts true Faults.none (RangeOrder.insertion _) 1 titleHits DB.empty
      = (none, ⟨[⟨1, "/x", "A", false, "2020-06-18 10:00:00", 3, 3⟩],
                [("12020-06-18 10:00:00/x", ⟨3, 3⟩)]⟩) ∧
    updateHitCounts false Faults.none (RangeOrder.insertion _) 1 titleHits DB.empty
      = (none, ⟨[⟨1, "/x", "A", false, "2020-06-18 10:00:00", 3, 3⟩],
                [("12020-06-18 10:00:00/x", ⟨3, 3⟩)]⟩) ∧
    DB.empty.store.find 1 (Time.Format ⟨2020, 6, 18, 10, 0, 0⟩) "/x" = none ∧
    bucketHits titleHits (Time.Format ⟨2020, 6, 18, 10, 0, 0⟩) "/x" ≠ [] ∧
    lastTitle (bucketHits titleHits (Time.Format ⟨2020, 6, 18, 10, 0, 0⟩) "/x") = "A" ∧
    storedTitle [⟨1, "/x", "A", false, "2020-06-18 10:00:00", 3, 3⟩] 1
        (Time.Format ⟨2020, 6, 18, 10, 0, 0⟩) "/x"
      = some (lastTitle (bucketHits titleHits (Time.Format ⟨2020, 6, 18, 10, 0, 0⟩) "/x")) :=
  ⟨by decide, by decide, by decide, by decide, by decide,
    updateHitCounts_title false Faults.none (RangeOrder.insertion _) 1 titleHits DB.empty
      ⟨[⟨1, "/x", "A", false, "2020-06-18 10:00:00", 3, 3⟩],
        [("12020-06-18 10:00:00/x", ⟨3, 3⟩)]⟩
      (by decide) ⟨2020, 6, 18, 10, 0, 0⟩ "/x" (by decide) (by decide)⟩

/-- C5, counterexample to the claim as stated, on a table that already holds
the row of the bucket with title `Old`: under the SQLite dialect a hit without
title replaces the stored title by the empty string, and under the PostgreSQL
dialect a hit with title `New` leaves the stored title `Old`. -/
theorem title_existing_row_counterexample :
    storedTitle (oneRow 1 1).store 1 "2020-06-18 10:00:00" "/x" = some "Old" ∧
    (updateHitCounts false Faults.none (RangeOrder.insertion _) 1 [mkHit "/x" "" 10 3]
      (oneRow 1 1)).1 = none ∧
    storedTitle (updateHitCounts false Faults.none (RangeOrder.insertion _) 1
      [mkHit "/x" "" 10 3] (oneRow 1 1)).2.store 1 "2020-06-18 10:00:00" "/x" = some "" ∧
    (updateHitCounts true Faults.none (RangeOrder.insertion _) 1 [mkHit "/x" "New" 10 3]
      (oneRow 1 1)).1 = none ∧
    storedTitle (updateHitCounts true Faults.none (RangeOrder.insertion _) 1
      [mkHit "/x" "New" 10 3] (oneRow 1 1)).2.store 1 "2020-06-18 10:00:00" "/x" = some "Old" := by
  decide

/-- C6, the code at the failing input: on a table that already holds the row
of the bucket with title `Old`, one hit with title `New` leaves the row with
title `Old` under the PostgreSQL dialect and with title `New` under the
SQLite dialect. -/
theorem upsert_dialects_differ :
    updateHitCounts true Faults.none (RangeOrder.insertion _) 1 [mkHit "/x" "New" 10 3]
        (oneRow 1 1)
      = (none, ⟨[⟨1, "/x", "Old", false, "2020-06-18 10:00:00", 2, 2⟩],
                [("12020-06-18 10:00:00/x", ⟨2, 2⟩)]⟩) ∧
    updateHitCounts false Faults.none (RangeOrder.insertion _) 1 [mkHit "/x" "New" 10 3]
        (oneRow 1 1)
      = (none, ⟨[⟨1, "/x", "New", false, "2020-06-18 10:00:00", 2, 2⟩],
                [("12020-06-18 10:00:00/x", ⟨2, 2⟩)]⟩) := by
  decide

/-- C7, the code at the failing input: on the empty table and cache, a call
whose upsert fails returns the error and leaves the table empty (rolled back)
but the cache holding the pair (1, 1) for the bucket, so the cache no longer
mirrors the table. -/
theorem failed_call_leaves_cache_entry :
    CacheMirrors 1 DB.empty ∧
    updateHitCounts true execDown (RangeOrder.insertion _) 1 [mkHit "/x" "" 10 3] DB.empty
      = (some (Error.wrap "updateHitCounts hit_counts" (Error.msg "db down")),
         ⟨[], [("12020-06-18 10:00:00/x", ⟨1, 1⟩)]⟩) ∧
    ¬ CacheMirrors 1 (updateHitCounts true execDown (RangeOrder.insertion _) 1
      [mkHit "/x" "" 10 3] DB.empty).2 := by
  refine ⟨CacheMirrors_empty_cache 1 [], by decide, ?_⟩
  intro h
  have := h ⟨2020, 6, 18, 10, 0, 0⟩ "/x" ⟨1, 1⟩ (by decide)
  revert this
  decide

/-- C10, as amended.  The invariant `total ≥ total_unique ≥ 0` on every row
and every cache entry holds in the empty table with the empty cache; it is
preserved by every call of `updateHitCounts` (any dialect, batch, context
site, visiting order and storage failure, whether the call succeeds or fails)
that cannot overflow a counter: every total, stored or cached, plus the size
of the batch fits a Go `int`; and therefore it holds in every state reached by
calls that together were given at most `maxInt` hits. -/
theorem counters_invariant :
    CountersInv DB.empty ∧
    (∀ (PgSQL : Bool) (f : Faults) (ro : RangeOrder (String × gt)) (siteID : Int)
        (hits : List Hit) (st : DB) (B : Int),
      CountersInv st → TotalsBelow B st → B + hits.length ≤ maxInt →
        CountersInv (updateHitCounts PgSQL f ro siteID hits st).2) ∧
    (∀ (n : Nat) (st : DB), ReachableIn n st → (n : Int) ≤ maxInt → CountersInv st) := by
  have h0 : CountersInv DB.empty :=
    ⟨by intro r hr; simp [DB.empty] at hr, by intro k e he; simp [DB.empty, Cache.Get] at he⟩
  refine ⟨h0, ?_, ?_⟩
  · intro PgSQL f ro siteID hits st B hi hb hN
    exact (updateHitCounts_inv PgSQL f ro siteID hits st hi B hb hN).1
  · intro n st hr
    have key : (n : Int) ≤ maxInt → CountersInv st ∧ TotalsBelow n st := by
      induction hr with
      | empty =>
        intro _
        exact ⟨h0, by simp, by intro r hr; simp [DB.empty] at hr,
          by intro k e he; simp [DB.empty, Cache.Get] at he⟩
      | call PgSQL f ro siteID hits n st _ ih =>
        intro hle
        have hl : (0 : Int) ≤ (hits.length : Int) := Int.natCast_nonneg _
        have hsum : (n : Int) + hits.length ≤ maxInt := by
          have : ((n + hits.length : Nat) : Int) = (n : Int) + hits.length := by push_cast; rfl
          rw [← this]; exact hle
        obtain ⟨i1, i2⟩ := ih (by omega)
        have := updateHitCounts_inv PgSQL f ro siteID hits st i1 n i2 hsum
        refine ⟨this.1, ?_⟩
        have hc : ((n + hits.length : Nat) : Int) = (n : Int) + hits.length := by
          push_cast; rfl
        rw [hc]
        exact this.2
    exact fun hle => (key hle).1

/-- C10, witness: the state left by the three scenario hits is reached with
three hits and satisfies the invariant. -/
theorem counters_invariant_witness :
    ReachableIn 3 scenarioResult ∧ (3 : Int) ≤ maxInt ∧ CountersInv scenarioResult :=
  have hr : ReachableIn 3 scenarioResult := by
    have h := ReachableIn.call true Faults.none (RangeOrder.insertion _) 1 scenarioHits 0
      DB.empty ReachableIn.empty
    rw [show (updateHitCounts true Faults.none (RangeOrder.insertion _) 1 scenarioHits
      DB.empty).2 = scenarioResult by decide] at h
    exact h
  ⟨hr, by decide, counters_invariant.2.2 3 scenarioResult hr (by decide)⟩

/-- C10, counterexample to the claim as stated: a table whose one row has
total and total_unique equal to the largest Go `int` satisfies the invariant;
one first-visit hit of that bucket leaves total and total_unique equal to the
smallest Go `int`, which breaks `total_unique ≥ 0`. -/
theorem counters_overflow_counterexample :
    CountersInv (oneRow maxInt maxInt) ∧
    updateHitCounts true Faults.none (RangeOrder.insertion _) 1 [botHit 0]
        (oneRow maxInt maxInt)
      = (none, ⟨[⟨1, "/x", "Old", false, "2020-06-18 10:00:00", minInt, minInt⟩],
                [("12020-06-18 10:00:00/x", ⟨minInt, minInt⟩)]⟩) ∧
    ¬ CountersInv (updateHitCounts true Faults.none (RangeOrder.insertion _) 1 [botHit 0]
        (oneRow maxInt maxInt)).2 := by
  refine ⟨⟨by decide, by intro k e he; simp [oneRow, Cache.Get] at he⟩, by decide, ?_⟩
  intro h
  have hrow := h.1 ⟨1, "/x", "Old", false, "2020-06-18 10:00:00", minInt, minInt⟩ (by decide)
  exact absurd hrow.2 (by decide)

/-- C3, as amended.  A hit with a positive bot score is excluded from
aggregation: `updateHitCounts` returns the same error, table and cache on the
batch and on the batch with that hit removed, and no batch that
`PersistAndStat` passes to `UpdateStats` (hence to any dimension function)
contains the hit. -/
theorem positive_bot_excluded (PgSQL : Bool) (f : Faults) (ro : RangeOrder (String × gt))
    (siteID : Int) (pre post : List Hit) (h : Hit) (st : DB)
    {σ : Type} (env : Env σ) (ro' : RangeOrder (Int × List Hit)) (r : Run σ)
    (hb : h.Bot > 0) :
    updateHitCounts PgSQL f ro siteID (pre ++ h :: post) st
      = updateHitCounts PgSQL f ro siteID (pre ++ post) st ∧
    Extends (fun c => h ∉ c.batch) r (PersistAndStat env ro' r).2 := by
  constructor
  · unfold updateHitCounts
    congr 1
    funext tx cache
    rw [groupLoop_skip_mid f cache tx h post hb pre []]
  · obtain ⟨added, h1, h2⟩ := PersistAndStat_batches env ro' r
    exact ⟨added, h1, fun c hc hmem => h2 c hc h hmem hb⟩

/-- C3, witness: a hit with bot score 1 between two scenario hits. -/
theorem positive_bot_excluded_witness :
    (botHit 1).Bot > 0 ∧
    updateHitCounts true Faults.none (RangeOrder.insertion _) 1
        ([mkHit "/x" "" 10 3] ++ botHit 1 :: [mkHit "/x" "" 11 2]) DB.empty
      = updateHitCounts true Faults.none (RangeOrder.insertion _) 1
        ([mkHit "/x" "" 10 3] ++ [mkHit "/x" "" 11 2]) DB.empty ∧
    Extends (fun c => botHit 1 ∉ c.batch) ⟨(), []⟩
      (PersistAndStat (stubEnv (fun _ => none) none (fun _ => some (site1 true))
        [mkHit "/x" "" 10 3, botHit 1, mkHit "/x" "" 11 2])
        (RangeOrder.insertion _) ⟨(), []⟩).2 ∧
    (PersistAndStat (stubEnv (fun _ => none) none (fun _ => some (site1 true))
        [mkHit "/x" "" 10 3, botHit 1, mkHit "/x" "" 11 2])
        (RangeOrder.insertion _) ⟨(), []⟩).2.trace
      = updateStatsCalls (site1 true) 1 [mkHit "/x" "" 10 3, mkHit "/x" "" 11 2]
          ++ [Call.lastMemstoreSet] :=
  have hw := positive_bot_excluded true Faults.none (RangeOrder.insertion _) 1
    [mkHit "/x" "" 10 3] [mkHit "/x" "" 11 2] (botHit 1) DB.empty
    (stubEnv (fun _ => none) none (fun _ => some (site1 true))
      [mkHit "/x" "" 10 3, botHit 1, mkHit "/x" "" 11 2])
    (RangeOrder.insertion _) ⟨(), []⟩ (by decide)
  ⟨by decide, hw.1, hw.2, by decide⟩

/-- C3, counterexample to the claim as stated: a hit with bot score -1 is not
excluded; `updateHitCounts` writes a row for it, and `PersistAndStat` passes
it to `UpdateStats`. -/
theorem nonzero_bot_counterexample :
    (botHit (-1)).Bot ≠ 0 ∧
    (updateHitCounts true Faults.none (RangeOrder.insertion _) 1 ([] ++ botHit (-1) :: [])
        DB.empty).2
      = ⟨[⟨1, "/x", "", false, "2020-06-18 10:00:00", 1, 1⟩],
         [("12020-06-18 10:00:00/x", ⟨1, 1⟩)]⟩ ∧
    (updateHitCounts true Faults.none (RangeOrder.insertion _) 1 ([] ++ []) DB.empty).2
      = DB.empty ∧
    Call.UpdateStats 1 [botHit (-1)] ∈
      (PersistAndStat (stubEnv (fun _ => none) none (fun _ => some (site1 true))
        [botHit (-1)]) (RangeOrder.insertion _) ⟨(), []⟩).2.trace := by
  decide

/-! ## Properties of the orchestration code -/

/-- What `PersistAndStat` returns is the error of the drain and nothing else:
`nil` whenever `Memstore.Persist` succeeds. -/
theorem PersistAndStat_error {σ : Type} (env : Env σ) (ro : RangeOrder (Int × List Hit))
    (r : Run σ) :
    (PersistAndStat env ro r).1 =
      match (env.Persist r.world).1 with
      | .error e => some e
      | .ok _ => none := by
  unfold PersistAndStat
  cases hp : env.Persist r.world with
  | mk res w => cases res <;> rfl

/-- C2, the code at the failing input: one drained hit of site 1 whose
`UpdateStats` fails in `updateHitStats`; the error is logged and
`PersistAndStat` returns `nil`. -/
theorem PersistAndStat_drops_site_error :
    (UpdateStats (drainEnv (failOnly Dim.updateHitStats) [mkHit "/x" "" 10 3]) none 1
      [mkHit "/x" "" 10 3] ⟨(), []⟩).1 = some (Error.wrap "site 1" (Error.msg "boom")) ∧
    (PersistAndStat (drainEnv (failOnly Dim.updateHitStats) [mkHit "/x" "" 10 3])
      (RangeOrder.insertion _) ⟨(), []⟩).1 = none ∧
    (PersistAndStat (drainEnv (failOnly Dim.updateHitStats) [mkHit "/x" "" 10 3])
      (RangeOrder.insertion _) ⟨(), []⟩).2.trace =
      [Call.UpdateStats 1 [mkHit "/x" "" 10 3],
       Call.dim Dim.updateHitStats (site1 true) [mkHit "/x" "" 10 3],
       Call.logError 1 [mkHit "/x" "" 10 3] (Error.wrap "site 1" (Error.msg "boom")),
       Call.lastMemstoreSet] := by
  decide

/-- C8, as amended.  For a site that is passed in or resolves, and any
assignment `outcome` of success or failure to the seven dimension functions:
if dimension `d` is the first to fail, `UpdateStats` calls exactly the
dimensions up to and including `d`, in their fixed order, each once with the
same batch, issues no `received_data` update, and returns the error of `d`
wrapped with the site identifier; if none fails it has called all seven, has
issued the `received_data` update if and only if the flag was false, and
returns `nil` unless that update was issued and failed, in which case it
returns the error of the update, wrapped. -/
theorem UpdateStats_sequence {σ : Type} (env : Env σ) (outcome : Dim → Option Error)
    (upd : Option Error) (site : Option Site) (s : Site) (siteID : Int) (hits : List Hit)
    (r : Run σ)
    (hres : site = some s ∨ (site = none ∧ env.ByID siteID r.world = .ok s))
    (hout : ∀ d w, (env.dim d s hits w).1 = outcome d)
    (hupd : ∀ w, (env.setReceivedData siteID w).1 = upd) :
    match firstFailure outcome funs with
    | some (pre, d, e) =>
      (∃ post, funs = pre ++ d :: post) ∧
      (UpdateStats env site siteID hits r).1
        = some (Error.wrap ("site " ++ FormatInt siteID) e) ∧
      (UpdateStats env site siteID hits r).2.trace
        = r.trace ++ Call.UpdateStats siteID hits
            :: (pre ++ [d]).map (fun x => Call.dim x s hits)
    | none =>
      (UpdateStats env site siteID hits r).1
        = (if s.ReceivedData then none
           else upd.map (Error.wrap ("update received_data: site " ++ FormatInt siteID))) ∧
      (UpdateStats env site siteID hits r).2.trace
        = r.trace ++ updateStatsCalls s siteID hits := by
  rw [UpdateStats_resolved env site s siteID hits r hres]
  cases hff : firstFailure outcome funs with
  | some q =>
    obtain ⟨pre, d, e⟩ := q
    obtain ⟨post, hfuns, hpre, hd⟩ := firstFailure_some outcome funs pre d e hff
    simp only
    refine ⟨⟨post, hfuns⟩, ?_⟩
    rw [hfuns]
    obtain ⟨a, b⟩ := runFuns_first_fail env s siteID hits d post e
      (fun w => by rw [hout, hd]) pre ⟨r.world, r.trace ++ [Call.UpdateStats siteID hits]⟩
      (fun x hx w => by rw [hout, hpre x hx])
    cases hrun : runFuns env s siteID hits (pre ++ d :: post)
        ⟨r.world, r.trace ++ [Call.UpdateStats siteID hits]⟩ with
    | mk e' r' =>
      rw [hrun] at a b
      simp only at a b
      subst a
      simp only [true_and]
      rw [b]
      simp
  | none =>
    have hall := firstFailure_none outcome funs hff
    obtain ⟨a, b⟩ := runFuns_all_ok env s siteID hits funs
      ⟨r.world, r.trace ++ [Call.UpdateStats siteID hits]⟩
      (fun d hd w => by rw [hout, hall d hd])
    cases hrun : runFuns env s siteID hits funs
        ⟨r.world, r.trace ++ [Call.UpdateStats siteID hits]⟩ with
    | mk e' r' =>
      rw [hrun] at a b
      simp only at a b
      subst a
      simp only
      cases hrd : s.ReceivedData with
      | true => simp [updateStatsCalls, hrd, b]
      | false =>
        have hu := hupd r'.world
        cases hset : env.setReceivedData siteID r'.world with
        | mk e'' w =>
          rw [hset] at hu
          simp only at hu
          subst hu
          cases e'' <;> simp [updateStatsCalls, hrd, b]

/-- C8, witness: `updateBrowserStats`, the third dimension, fails for site 1;
the first three dimensions are called, the `received_data` update is not
issued although the flag is false, and the wrapped error is returned. -/
theorem UpdateStats_sequence_witness :
    ((some (site1 false) : Option Site) = some (site1 false) ∨
      ((some (site1 false) : Option Site) = none ∧
        (stubEnv (failOnly Dim.updateBrowserStats) none (fun _ => none) []).ByID 1 ()
          = .ok (site1 false))) ∧
    (∀ d w, ((stubEnv (failOnly Dim.updateBrowserStats) none (fun _ => none) []).dim d
      (site1 false) scenarioHits w).1 = failOnly Dim.updateBrowserStats d) ∧
    (∀ w, ((stubEnv (failOnly Dim.updateBrowserStats) none (fun _ => none) []).setReceivedData
      1 w).1 = none) ∧
    (UpdateStats (stubEnv (failOnly Dim.updateBrowserStats) none (fun _ => none) [])
      (some (site1 false)) 1 scenarioHits ⟨(), []⟩).1
        = some (Error.wrap "site 1" (Error.msg "boom")) ∧
    (UpdateStats (stubEnv (failOnly Dim.updateBrowserStats) none (fun _ => none) [])
      (some (site1 false)) 1 scenarioHits ⟨(), []⟩).2.trace
        = [Call.UpdateStats 1 scenarioHits,
           Call.dim Dim.updateHitStats (site1 false) scenarioHits,
           Call.dim Dim.updateHitCounts (site1 false) scenarioHits,
           Call.dim Dim.updateBrowserStats (site1 false) scenarioHits] ∧
    (match firstFailure (failOnly Dim.updateBrowserStats) funs with
    | some (pre, d, e) =>
      (∃ post, funs = pre ++ d :: post) ∧
      (UpdateStats (stubEnv (failOnly Dim.updateBrowserStats) none (fun _ => none) [])
        (some (site1 false)) 1 scenarioHits ⟨(), []⟩).1
        = some (Error.wrap ("site " ++ FormatInt 1) e) ∧
      (UpdateStats (stubEnv (failOnly Dim.updateBrowserStats) none (fun _ => none) [])
        (some (site1 false)) 1 scenarioHits ⟨(), []⟩).2.trace
        = [] ++ Call.UpdateStats 1 scenarioHits
            :: (pre ++ [d]).map (fun x => Call.dim x (site1 false) scenarioHits)
    | none =>
      (UpdateStats (stubEnv (failOnly Dim.updateBrowserStats) none (fun _ => none) [])
        (some (site1 false)) 1 scenarioHits ⟨(), []⟩).1
        = (if (site1 false).ReceivedData then none
           else (none : Option Error).map
             (Error.wrap ("update received_data: site " ++ FormatInt 1))) ∧
      (UpdateStats (stubEnv (failOnly Dim.updateBrowserStats) none (fun _ => none) [])
        (some (site1 false)) 1 scenarioHits ⟨(), []⟩).2.trace
        = [] ++ updateStatsCalls (site1 false) 1 scenarioHits) :=
  ⟨Or.inl rfl, fun _ _ => rfl, fun _ => rfl, by decide, by decide,
    UpdateStats_sequence (stubEnv (failOnly Dim.updateBrowserStats) none (fun _ => none) [])
      (failOnly Dim.updateBrowserStats) none (some (site1 false)) (site1 false) 1 scenarioHits
      ⟨(), []⟩ (Or.inl rfl) (fun _ _ => rfl) (fun _ => rfl)⟩

/-- C8, counterexample to the claim as stated: none of the seven dimension
functions fails and the flag is false, but the `received_data` update fails;
`UpdateStats` returns that error, not `nil`. -/
theorem received_data_failure_counterexample :
    (∀ d ∈ funs, (fun _ : Dim => (none : Option Error)) d = none) ∧
    (site1 false).ReceivedData = false ∧
    (UpdateStats (stubEnv (fun _ => none) (some (Error.msg "db down")) (fun _ => none) [])
      (some (site1 false)) 1 scenarioHits ⟨(), []⟩).1
        = some (Error.wrap "update received_data: site 1" (Error.msg "db down")) ∧
    (UpdateStats (stubEnv (fun _ => none) (some (Error.msg "db down")) (fun _ => none) [])
      (some (site1 false)) 1 scenarioHits ⟨(), []⟩).2.trace
        = updateStatsCalls (site1 false) 1 scenarioHits := by
  decide

/-- C9, as amended.  For hits whose sites are all in the snapshot,
`ReindexStats` visits every site that has a hit once (in the order `range`
yields them) and owes, to every visited site that is active and every table
name in order, exactly the call of the dimension function bearing that name
with exactly the hits of that site (for `all`: everything `UpdateStats`
does), nothing to a name outside the closed set and nothing to a site that is
not active.  Whatever each of these invocations returns: if none of them
fails, all are performed in that order and `nil` is returned; if one fails,
the run performs exactly the invocations up to and including the first that
fails, stops, and returns its error.  With `tables = ["hit_counts"]`, failure
or not, every action performed is a call of `updateHitCounts`. -/
theorem ReindexStats_calls {σ : Type} (env : Env σ) (ro : RangeOrder (Int × List Hit))
    (allSites : Int → Option Site) (hits : List Hit) (tables : List String) (r : Run σ)
    (hin : ∀ h ∈ hits, (allSites h.Site).isSome) :
    ((ro.pick (groupBySite hits)).map Prod.fst).Nodup ∧
    (∀ id, id ∈ (ro.pick (groupBySite hits)).map Prod.fst ↔ ∃ h ∈ hits, h.Site = id) ∧
    (∀ (outcome : Dim → Site → List Hit → Option Error) (upd : Int → Option Error),
      (∀ d s hs w, (env.dim d s hs w).1 = outcome d s hs) →
      (∀ id w, (env.setReceivedData id w).1 = upd id) →
      ((∀ q ∈ reindexPlan outcome upd allSites tables
            ((ro.pick (groupBySite hits)).map Prod.fst) hits, q.2 = none) →
        (ReindexStats env ro allSites hits tables r).1 = none ∧
        (ReindexStats env ro allSites hits tables r).2.trace
          = r.trace ++ ((ro.pick (groupBySite hits)).map Prod.fst).flatMap
              (fun id => siteCalls allSites tables id (siteHits hits id))) ∧
      (∀ (pre post : List (Call × Option Error)) (c : Call) (e : Error),
        reindexPlan outcome upd allSites tables
            ((ro.pick (groupBySite hits)).map Prod.fst) hits = pre ++ (c, some e) :: post →
        (∀ q ∈ pre, q.2 = none) →
        (ReindexStats env ro allSites hits tables r).1 = some e ∧
        (ReindexStats env ro allSites hits tables r).2.trace
          = r.trace ++ (pre.map Prod.fst ++ [c]))) ∧
    (tables = ["hit_counts"] →
      Extends (fun c => ∃ s hs, c = Call.dim Dim.updateHitCounts s hs) r
        (ReindexStats env ro allSites hits tables r).2) := by
  obtain ⟨g1, g2, g3⟩ := groupBySite_spec hits
  have hperm := ro.perm (groupBySite hits)
  refine ⟨(hperm.map Prod.fst).nodup_iff.2 g1, ?_, ?_, ?_⟩
  · intro id
    rw [(hperm.map Prod.fst).mem_iff]
    exact g3 id
  · intro outcome upd hout hupd
    have hsome : ∀ p ∈ ro.pick (groupBySite hits), (allSites p.1).isSome := by
      intro p hp
      have hpg := hperm.mem_iff.1 hp
      obtain ⟨h, hm, hs⟩ := (g3 p.1).1 (List.mem_map.2 ⟨p, hpg, rfl⟩)
      rw [← hs]
      exact hin h hm
    have hreal := Realises.sitesLoop env outcome upd hout hupd allSites tables
      (ro.pick (groupBySite hits)) hsome r
    have hplan : (ro.pick (groupBySite hits)).flatMap
        (fun p => sitePlan outcome upd allSites tables p.1 p.2)
        = reindexPlan outcome upd allSites tables
            ((ro.pick (groupBySite hits)).map Prod.fst) hits :=
      flatMap_site_groups hits (fun id hs => sitePlan outcome upd allSites tables id hs)
        (ro.pick (groupBySite hits)) (fun p hp => (g2 p (hperm.mem_iff.1 hp)).1)
    rw [hplan] at hreal
    have hrun : (ReindexStats env ro allSites hits tables r)
        = sitesLoop env allSites tables (ro.pick (groupBySite hits)) r := rfl
    rw [hrun]
    constructor
    · intro hnone
      rw [runPlan_all_none _ hnone] at hreal
      refine ⟨hreal.1, ?_⟩
      rw [hreal.2]
      congr 1
      exact map_fst_flatMap _ _
        (fun id => sitePlan_calls outcome upd allSites tables id (siteHits hits id)) _
    · intro pre post c e heq hpre
      rw [heq, runPlan_first_failure c e post pre hpre] at hreal
      exact hreal
  · rintro rfl
    exact sitesLoop_hit_counts env allSites (ro.pick (groupBySite hits)) r

/-- C9, witness: hits of the active site 1 and of the soft-deleted site 2.
Without failure, tables `hit_counts`, an unknown name and `all` give the call
of `updateHitCounts` and then everything `UpdateStats` does, for site 1 only.
With `updateHitCounts` failing, tables `hit_stats`, `hit_counts` and
`size_stats` give the calls of `updateHitStats` and `updateHitCounts` and the
error of the latter. -/
theorem ReindexStats_calls_witness :
    (∀ h ∈ [mkHit "/x" "" 10 3, otherSiteHit], (twoSites h.Site).isSome) ∧
    (ReindexStats (stubEnv (fun _ => none) none (fun _ => none) []) (RangeOrder.reversed _)
      twoSites [mkHit "/x" "" 10 3, otherSiteHit] ["hit_counts", "bogus", "all"] ⟨(), []⟩).1
      = none ∧
    (ReindexStats (stubEnv (fun _ => none) none (fun _ => none) []) (RangeOrder.reversed _)
      twoSites [mkHit "/x" "" 10 3, otherSiteHit] ["hit_counts", "bogus", "all"]
      ⟨(), []⟩).2.trace
      = [] ++ ((RangeOrder.pick (RangeOrder.reversed _)
            (groupBySite [mkHit "/x" "" 10 3, otherSiteHit])).map Prod.fst).flatMap
          (fun id => siteCalls twoSites ["hit_counts", "bogus", "all"] id
            (siteHits [mkHit "/x" "" 10 3, otherSiteHit] id)) ∧
    ((RangeOrder.pick (RangeOrder.reversed _)
        (groupBySite [mkHit "/x" "" 10 3, otherSiteHit])).map Prod.fst).flatMap
      (fun id => siteCalls twoSites ["hit_counts", "bogus", "all"] id
        (siteHits [mkHit "/x" "" 10 3, otherSiteHit] id))
      = [Call.dim Dim.updateHitCounts ⟨1, false, StateActive⟩ [mkHit "/x" "" 10 3],
         Call.UpdateStats 1 [mkHit "/x" "" 10 3],
         Call.dim Dim.updateHitStats ⟨1, false, StateActive⟩ [mkHit "/x" "" 10 3],
         Call.dim Dim.updateHitCounts ⟨1, false, StateActive⟩ [mkHit "/x" "" 10 3],
         Call.dim Dim.updateBrowserStats ⟨1, false, StateActive⟩ [mkHit "/x" "" 10 3],
         Call.dim Dim.updateSystemStats ⟨1, false, StateActive⟩ [mkHit "/x" "" 10 3],
         Call.dim Dim.updateLocationStats ⟨1, false, StateActive⟩ [mkHit "/x" "" 10 3],
         Call.dim Dim.updateRefCounts ⟨1, false, StateActive⟩ [mkHit "/x" "" 10 3],
         Call.dim Dim.updateSizeStats ⟨1, false, StateActive⟩ [mkHit "/x" "" 10 3],
         Call.receivedData 1] ∧
    (ReindexStats (stubEnv (failOnly Dim.updateHitCounts) none (fun _ => none) [])
      (RangeOrder.insertion _) twoSites [mkHit "/x" "" 10 3, otherSiteHit]
      ["hit_stats", "hit_counts", "size_stats"] ⟨(), []⟩).1 = some (Error.msg "boom") ∧
    (ReindexStats (stubEnv (failOnly Dim.updateHitCounts) none (fun _ => none) [])
      (RangeOrder.insertion _) twoSites [mkHit "/x" "" 10 3, otherSiteHit]
      ["hit_stats", "hit_counts", "size_stats"] ⟨(), []⟩).2.trace
      = [] ++ ([(Call.dim Dim.updateHitStats ⟨1, false, StateActive⟩ [mkHit "/x" "" 10 3],
                 (none : Option Error))].map Prod.fst
          ++ [Call.dim Dim.updateHitCounts ⟨1, false, StateActive⟩ [mkHit "/x" "" 10 3]]) ∧
    (ReindexStats (hitCountEnv true Faults.none (RangeOrder.insertion _) twoSites [])
      (RangeOrder.insertion _) twoSites scenarioHits ["hit_counts"] ⟨DB.empty, []⟩).2.world
      = scenarioResult ∧
    Extends (fun c => ∃ s hs, c = Call.dim Dim.updateHitCounts s hs) ⟨(), []⟩
      (ReindexStats (stubEnv (failOnly Dim.updateHitCounts) none (fun _ => none) [])
        (RangeOrder.insertion _) twoSites [mkHit "/x" "" 10 3, otherSiteHit] ["hit_counts"]
        ⟨(), []⟩).2 :=
  have ok := ((ReindexStats_calls (stubEnv (fun _ => none) none (fun _ => none) [])
      (RangeOrder.reversed _) twoSites [mkHit "/x" "" 10 3, otherSiteHit]
      ["hit_counts", "bogus", "all"] ⟨(), []⟩ (by decide)).2.2.1
        (fun _ _ _ => none) (fun _ => none) (fun _ _ _ _ => rfl) (fun _ _ => rfl)).1
        (by decide)
  have ko := ((ReindexStats_calls (stubEnv (failOnly Dim.updateHitCounts) none (fun _ => none) [])
      (RangeOrder.insertion _) twoSites [mkHit "/x" "" 10 3, otherSiteHit]
      ["hit_stats", "hit_counts", "size_stats"] ⟨(), []⟩ (by decide)).2.2.1
        (fun d _ _ => failOnly Dim.updateHitCounts d) (fun _ => none)
        (fun _ _ _ _ => rfl) (fun _ _ => rfl)).2
        [(Call.dim Dim.updateHitStats ⟨1, false, StateActive⟩ [mkHit "/x" "" 10 3], none)]
        [(Call.dim Dim.updateSizeStats ⟨1, false, StateActive⟩ [mkHit "/x" "" 10 3], none)]
        (Call.dim Dim.updateHitCounts ⟨1, false, StateActive⟩ [mkHit "/x" "" 10 3])
        (Error.msg "boom") (by decide) (by decide)
  ⟨by decide, ok.1, ok.2, by decide, ko.1, ko.2, by decide,
    (ReindexStats_calls (stubEnv (failOnly Dim.updateHitCounts) none (fun _ => none) [])
      (RangeOrder.insertion _) twoSites [mkHit "/x" "" 10 3, otherSiteHit] ["hit_counts"]
      ⟨(), []⟩ (by decide)).2.2.2 rfl⟩

/-- C9, counterexample to the claim as stated: site 1 is active and the tables
are `hit_stats` and `hit_counts`, but `updateHitStats` fails, so the run stops
and `updateHitCounts` is never called. -/
theorem reindex_fail_fast_counterexample :
    (∀ h ∈ [mkHit "/x" "" 10 3], (twoSites h.Site).isSome) ∧
    (ReindexStats (stubEnv (failOnly Dim.updateHitStats) none (fun _ => none) [])
      (RangeOrder.insertion _) twoSites [mkHit "/x" "" 10 3] ["hit_stats", "hit_counts"]
      ⟨(), []⟩).1 = some (Error.msg "boom") ∧
    (ReindexStats (stubEnv (failOnly Dim.updateHitStats) none (fun _ => none) [])
      (RangeOrder.insertion _) twoSites [mkHit "/x" "" 10 3] ["hit_stats", "hit_counts"]
      ⟨(), []⟩).2.trace
      = [Call.dim Dim.updateHitStats ⟨1, false, StateActive⟩ [mkHit "/x" "" 10 3]] ∧
    Call.dim Dim.updateHitCounts ⟨1, false, StateActive⟩ [mkHit "/x" "" 10 3] ∉
      (ReindexStats (stubEnv (failOnly Dim.updateHitStats) none (fun _ => none) [])
        (RangeOrder.insertion _) twoSites [mkHit "/x" "" 10 3] ["hit_stats", "hit_counts"]
        ⟨(), []⟩).2.trace := by
  decide

end GoatCounter
